import Mathlib

/-!
Verification of the ordinal-inscription indexer (crate `ordi`).

This file shallowly embeds the parts of the crate that the checked
properties are about:

* `src/epoch.rs`, `src/height.rs` — the subsidy schedule;
* `src/inscription.rs`          — the inscription envelope parser;
* `src/block.rs`                — the inscription tracking engine
  (`InscriptionUpdater`), its per-transaction replay, its destination
  rewrite, and `flush_update`;
* `src/bitcoin/index.rs`        — the block-index loader
  (`parse_index_for_ordinals`).

Modelling conventions:

* Rust `u64` values are embedded as `Nat`; `u64` additions and
  subtractions are performed modulo `2 ^ 64` (`add64` / `sub64`),
  matching release-mode wrap-around semantics.  The `i64` inscription
  counters are embedded as unbounded `Int` (their `i64` wrap-around at
  `± 2 ^ 63` is unreachable for the properties stated here); the
  little-endian byte images stored in the `status` table are computed
  exactly as the source does, via two-complement encoding.
* The five LevelDB handles are embedded as association lists with
  first-match lookup and overwrite-on-put, and `WriteBatch` as the list
  of its operations, applied in order.
* Calls that write to one of the five databases additionally append an
  event to an event trace (`Ev`), which makes commit ordering provable.
* The bitcoin-node RPC client is an environment parameter
  `rpc : String → Nat → Option Nat` returning the value of an output;
  `none` makes the replay fail, as a `bitcoincore_rpc` error does.
* Fallible paths (`?`, `unwrap`, `panic!`) are threaded through
  `Option`/`Except`: `none` / `.error` is an aborted replay.
-/

set_option autoImplicit false

namespace Ordi

/-! ## Bytes and little-endian integer images -/

/-- Byte strings (each entry is one byte, `< 256` for well-formed data). -/
abbrev Bytes := List Nat

/-- `u64::to_le_bytes`: the eight little-endian bytes of `n % 2 ^ 64`. -/
def u64LE (n : Nat) : Bytes :=
  [n % 256, n / 256 % 256, n / 256 ^ 2 % 256, n / 256 ^ 3 % 256,
   n / 256 ^ 4 % 256, n / 256 ^ 5 % 256, n / 256 ^ 6 % 256, n / 256 ^ 7 % 256]

/-- `u64::from_le_bytes` (the source unwraps an 8-byte vector first; the
engine only ever stores 8-byte values in the `status` and `output_value`
tables). -/
def u64FromLE (bs : Bytes) : Nat :=
  bs.foldr (fun b acc => acc * 256 + b) 0

/-- `i64::to_le_bytes`, via the two-complement image in `[0, 2 ^ 64)`. -/
def i64LE (i : Int) : Bytes :=
  u64LE (i % (2 ^ 64 : Int)).toNat

/-- `i64::from_le_bytes`. -/
def i64FromLE (bs : Bytes) : Int :=
  let n := u64FromLE bs
  if n < 2 ^ 63 then (n : Int) else (n : Int) - 2 ^ 64

/-- Wrapping `u64` addition (release-mode `+`). -/
def add64 (a b : Nat) : Nat := (a + b) % 2 ^ 64

/-- Wrapping `u64` subtraction (release-mode `-`): exact when `b ≤ a`
(for in-range operands), wrapped otherwise. -/
def sub64 (a b : Nat) : Nat := (a + 2 ^ 64 - b % 2 ^ 64) % 2 ^ 64

theorem u64FromLE_u64LE (n : Nat) : u64FromLE (u64LE n) = n % 2 ^ 64 := by
  simp only [u64LE, u64FromLE, List.foldr]
  omega

theorem i64FromLE_i64LE (i : Int) (h0 : -(2 ^ 63) ≤ i) (h1 : i < 2 ^ 63) :
    i64FromLE (i64LE i) = i := by
  simp only [i64LE, i64FromLE, u64FromLE_u64LE]
  have hmod : (i % (2 ^ 64 : Int)) = if 0 ≤ i then i else i + 2 ^ 64 := by
    split
    · omega
    · omega
  split at hmod <;> simp only [hmod] <;> split <;> omega

theorem sub64_exact (a b : Nat) (hb : b ≤ a) (ha : a < 2 ^ 64) :
    sub64 a b = a - b := by
  simp only [sub64]
  have : b % 2 ^ 64 = b := Nat.mod_eq_of_lt (lt_of_le_of_lt hb ha)
  rw [this]
  omega

theorem add64_exact (a b : Nat) (h : a + b < 2 ^ 64) : add64 a b = a + b := by
  simp only [add64]
  omega

/-! ## The key-value store and write batches (`rusty_leveldb::DB`,
`rusty_leveldb::WriteBatch`) -/

/-- A database handle: an association list with first-match lookup. -/
def KV (κ ν : Type) : Type := List (κ × ν)

instance (κ ν : Type) [DecidableEq κ] [DecidableEq ν] : DecidableEq (KV κ ν) :=
  inferInstanceAs (DecidableEq (List (κ × ν)))

def KV.empty {κ ν : Type} : KV κ ν := []

/-- `DB::get`. -/
def KV.get {κ ν : Type} [DecidableEq κ] : KV κ ν → κ → Option ν
  | [], _ => none
  | (k1, v1) :: rest, k => if k1 = k then some v1 else KV.get rest k

/-- Remove every binding of a key. -/
def KV.eraseKey {κ ν : Type} [DecidableEq κ] : KV κ ν → κ → KV κ ν
  | [], _ => []
  | (k1, v1) :: rest, k =>
      if k1 = k then KV.eraseKey rest k else (k1, v1) :: KV.eraseKey rest k

/-- `DB::put` (and `HashMap::insert`): overwrite semantics. -/
def KV.put {κ ν : Type} [DecidableEq κ] (s : KV κ ν) (k : κ) (v : ν) : KV κ ν :=
  (k, v) :: s.eraseKey k

/-- A batch or map delete. -/
def KV.del {κ ν : Type} [DecidableEq κ] (s : KV κ ν) (k : κ) : KV κ ν :=
  s.eraseKey k

/-- One `WriteBatch` operation. -/
inductive WOp (κ ν : Type) where
  | put (k : κ) (v : ν)
  | del (k : κ)
  deriving DecidableEq

/-- `rusty_leveldb::WriteBatch`: the recorded operations, in order. -/
abbrev WriteBatch (κ ν : Type) := List (WOp κ ν)

/-- `DB::write`: apply a batch in order. -/
def KV.write {κ ν : Type} [DecidableEq κ] (s : KV κ ν) (wb : WriteBatch κ ν) : KV κ ν :=
  wb.foldl (fun s op => match op with | .put k v => s.put k v | .del k => s.del k) s

@[simp] theorem KV.get_put_same {κ ν : Type} [DecidableEq κ] (s : KV κ ν) (k : κ) (v : ν) :
    (s.put k v).get k = some v := by
  simp [KV.put, KV.get]

theorem KV.get_eraseKey_ne {κ ν : Type} [DecidableEq κ] (s : KV κ ν) (k k' : κ)
    (h : k ≠ k') : (s.eraseKey k).get k' = s.get k' := by
  induction s with
  | nil => rfl
  | cons p rest ih =>
    obtain ⟨k1, v1⟩ := p
    by_cases h1 : k1 = k
    · subst h1
      rw [KV.eraseKey, if_pos rfl, ih, KV.get, if_neg h]
    · simp only [KV.eraseKey, if_neg h1, KV.get]
      by_cases h2 : k1 = k' <;> simp [h2, ih]

theorem KV.get_put_ne {κ ν : Type} [DecidableEq κ] (s : KV κ ν) (k k' : κ) (v : ν)
    (h : k ≠ k') : (s.put k v).get k' = s.get k' := by
  simp only [KV.put, KV.get, if_neg h]
  exact KV.get_eraseKey_ne s k k' h

/-! ## Subsidy schedule (`src/epoch.rs`, `src/height.rs`) -/

def SUBSIDY_HALVING_INTERVAL : Nat := 210000

def COIN_VALUE : Nat := 100000000

/-- `Epoch::FIRST_POST_SUBSIDY`. -/
def FIRST_POST_SUBSIDY : Nat := 33

/-- `Epoch::subsidy`. -/
def Epoch.subsidy (e : Nat) : Nat :=
  if e < FIRST_POST_SUBSIDY then (50 * COIN_VALUE) >>> e else 0

/-- `Height::subsidy`. -/
def Height.subsidy (h : Nat) : Nat :=
  Epoch.subsidy (h / SUBSIDY_HALVING_INTERVAL)

/-! ## Transactions (`src/bitcoin/proto/tx.rs`), as consumed by the engine.

Transaction and output identifiers are kept in their display form
(lowercase hex `String`), which is the only form the engine ever uses
(`format!` on `sha256d::Hash`). -/

/-- `bitcoin::blockdata::script::Error`, opaque: the engine never
inspects it. -/
inductive ScriptError where
  | scriptError
  deriving DecidableEq

instance {ε α : Type} [DecidableEq ε] [DecidableEq α] : DecidableEq (Except ε α)
  | .error a, .error b =>
      if h : a = b then .isTrue (h ▸ rfl)
      else .isFalse (fun hh => h (Except.error.inj hh))
  | .error _, .ok _ => .isFalse (fun hh => Except.noConfusion hh)
  | .ok _, .error _ => .isFalse (fun hh => Except.noConfusion hh)
  | .ok a, .ok b =>
      if h : a = b then .isTrue (h ▸ rfl)
      else .isFalse (fun hh => h (Except.ok.inj hh))

/-- A script instruction, as yielded by rust-bitcoin's `Instructions`
iterator. -/
inductive Instr where
  | pushBytes (bs : Bytes)
  | op (code : Nat)
  deriving DecidableEq

/-- One witness element: the raw bytes (consulted for the annex check)
together with the instruction stream that rust-bitcoin's script
iterator yields when the element is parsed as a script (an `error` item
models an `Err(script::Error)` produced by the iterator). -/
structure WElem where
  bytes : Bytes
  instrs : List (Except ScriptError Instr)
  deriving DecidableEq

abbrev Witness := List WElem

/-- `TxOutpoint`. -/
structure TxOutpoint where
  txid : String
  index : Nat
  deriving DecidableEq

/-- The 64-zero-hex display of the all-zero hash (`null_hash` in
`src/block.rs`). -/
def null_hash : String :=
  "0000000000000000000000000000000000000000000000000000000000000000"

/-- `TxOutpoint::is_null`: all-zero txid and index `u32::MAX`. -/
def TxOutpoint.is_null (o : TxOutpoint) : Bool :=
  o.txid == null_hash && o.index == 4294967295

/-- `TxInput`, restricted to the fields the engine reads. -/
structure TxIn where
  outpoint : TxOutpoint
  witness : Option Witness
  deriving DecidableEq

/-- `EvaluatedTxOut`: the output value and the address its script
evaluates to. -/
structure TxOut where
  value : Nat
  address : Option String
  deriving DecidableEq

/-- `Hashed<EvaluatedTx>`: the display hex of the tx hash plus inputs
and outputs. -/
structure Tx where
  hash : String
  inputs : List TxIn
  outputs : List TxOut
  deriving DecidableEq

/-- A block, as consumed by `BlockUpdater` (header timestamp plus
transactions). -/
structure Block where
  timestamp : Nat
  txs : List Tx
  deriving DecidableEq

/-! ## Inscription envelope parser (`src/inscription.rs`) -/

def PROTOCOL_ID : Bytes := [111, 114, 100]

def BODY_TAG : Bytes := []

def CONTENT_TYPE_TAG : Bytes := [1]

/-- `TAPROOT_ANNEX_PREFIX` (`0x50`). -/
def annexByte : Nat := 0x50

def OP_IF : Nat := 0x63

def OP_ENDIF : Nat := 0x68

inductive Curse where
  | NotInFirstInput
  | NotAtOffsetZero
  | Reinscription
  deriving DecidableEq

inductive InscriptionError where
  | EmptyWitness
  | InvalidInscription
  | KeyPathSpend
  | NoInscription
  | Script (e : ScriptError)
  | UnrecognizedEvenField
  deriving DecidableEq

structure Inscription where
  body : Option Bytes
  content_type : Option Bytes
  deriving DecidableEq

structure TransactionInscription where
  inscription : Inscription
  tx_in_index : Nat
  tx_in_offset : Nat
  deriving DecidableEq

/-- The parser's instruction stream. -/
abbrev Instrs := List (Except ScriptError Instr)

/-- `InscriptionParser::advance`: pop the next instruction; an iterator
error becomes `Script`, exhaustion becomes `NoInscription`. -/
def advance : Instrs → (Except InscriptionError Instr) × Instrs
  | [] => (.error .NoInscription, [])
  | .error e :: rest => (.error (.Script e), rest)
  | .ok i :: rest => (.ok i, rest)

/-- `InscriptionParser::accept`: peek, consuming only on a match. -/
def accept (ins : Instr) : Instrs → (Except InscriptionError Bool) × Instrs
  | [] => (.ok false, [])
  | .error e :: rest => (.error (.Script e), .error e :: rest)
  | .ok i :: rest =>
      if i = ins then (.ok true, rest) else (.ok false, .ok i :: rest)

/-- `InscriptionParser::expect_push`. -/
def expect_push (s : Instrs) : (Except InscriptionError Bytes) × Instrs :=
  match advance s with
  | (.ok (.pushBytes bs), s1) => (.ok bs, s1)
  | (.ok (.op _), s1) => (.error .InvalidInscription, s1)
  | (.error e, s1) => (.error e, s1)

/-- `InscriptionParser::match_instructions`. -/
def match_instructions : List Instr → Instrs → (Except InscriptionError Bool) × Instrs
  | [], s => (.ok true, s)
  | i :: is, s =>
      match advance s with
      | (.error e, s1) => (.error e, s1)
      | (.ok j, s1) => if j = i then match_instructions is s1 else (.ok false, s1)

/-- The envelope header `OP_FALSE OP_IF PUSH "ord"` (an empty push is
`OP_FALSE`). -/
def envelope_header : List Instr :=
  [.pushBytes [], .op OP_IF, .pushBytes PROTOCOL_ID]

/-- `InscriptionParser::advance_into_inscription_envelope`: scan until
the header matches.  The loop consumes at least one instruction per
iteration, so fuel `s.length + 1` never runs out; the fuel-exhausted
branch mirrors the empty-stream result. -/
def advance_into_inscription_envelope :
    Nat → Instrs → (Except InscriptionError Unit) × Instrs
  | 0, s => (.error .NoInscription, s)
  | fuel + 1, s =>
      match match_instructions envelope_header s with
      | (.error e, s1) => (.error e, s1)
      | (.ok true, s1) => (.ok (), s1)
      | (.ok false, s1) => advance_into_inscription_envelope fuel s1

/-- The body-collection loop of `parse_one_inscription`. -/
def parse_body (fuel : Nat) (body : Bytes) (s : Instrs) :
    (Except InscriptionError Bytes) × Instrs :=
  match fuel with
  | 0 => (.error .NoInscription, s)
  | fuel + 1 =>
      match accept (.op OP_ENDIF) s with
      | (.error e, s1) => (.error e, s1)
      | (.ok true, s1) => (.ok body, s1)
      | (.ok false, s1) =>
          match expect_push s1 with
          | (.error e, s2) => (.error e, s2)
          | (.ok bs, s2) => parse_body fuel (body ++ bs) s2

/-- The field-collection loop of `parse_one_inscription`. -/
def parse_fields (fuel : Nat) (fields : KV Bytes Bytes) (s : Instrs) :
    (Except InscriptionError (KV Bytes Bytes)) × Instrs :=
  match fuel with
  | 0 => (.error .NoInscription, s)
  | fuel + 1 =>
      match advance s with
      | (.error e, s1) => (.error e, s1)
      | (.ok (.pushBytes tag), s1) =>
          if tag = BODY_TAG then
            match parse_body (s1.length + 1) [] s1 with
            | (.error e, s2) => (.error e, s2)
            | (.ok body, s2) => (.ok (fields.put BODY_TAG body), s2)
          else if (fields.get tag).isSome then (.error .InvalidInscription, s1)
          else
            match expect_push s1 with
            | (.error e, s2) => (.error e, s2)
            | (.ok v, s2) => parse_fields fuel (fields.put tag v) s2
      | (.ok (.op c), s1) =>
          if c = OP_ENDIF then (.ok fields, s1) else (.error .InvalidInscription, s1)

/-- `InscriptionParser::parse_one_inscription`. -/
def parse_one_inscription (s : Instrs) : (Except InscriptionError Inscription) × Instrs :=
  match advance_into_inscription_envelope (s.length + 1) s with
  | (.error e, s1) => (.error e, s1)
  | (.ok _, s1) =>
      match parse_fields (s1.length + 1) KV.empty s1 with
      | (.error e, s2) => (.error e, s2)
      | (.ok fields0, s2) =>
          let body := fields0.get BODY_TAG
          let fields1 := fields0.del BODY_TAG
          let content_type := fields1.get CONTENT_TYPE_TAG
          let fields2 := fields1.del CONTENT_TYPE_TAG
          if fields2.any (fun p =>
              match p.1 with
              | b :: _ => b % 2 = 0
              | [] => false) then
            (.error .UnrecognizedEvenField, s2)
          else
            (.ok ⟨body, content_type⟩, s2)

/-- `InscriptionParser::parse_inscriptions`: loop until the
`NoInscription` sentinel.  Every non-sentinel call to
`parse_one_inscription` consumes at least one instruction, so fuel
`s.length + 1` suffices. -/
def parse_inscriptions (fuel : Nat) (acc : List (Except InscriptionError Inscription))
    (s : Instrs) : List (Except InscriptionError Inscription) :=
  match fuel with
  | 0 => acc
  | fuel + 1 =>
      match parse_one_inscription s with
      | (.error .NoInscription, _) => acc
      | (r, s1) => parse_inscriptions fuel (acc ++ [r]) s1

/-- `InscriptionParser::parse` on a witness. -/
def InscriptionParser.parse (witness : Witness) : Except InscriptionError (List Inscription) :=
  if witness.length = 0 then .error .EmptyWitness
  else if witness.length = 1 then .error .KeyPathSpend
  else
    let annex : Bool :=
      match witness.getLast? with
      | some el =>
          match el.bytes.head? with
          | some b => b == annexByte
          | none => false
      | none => false
    if witness.length = 2 && annex then .error .KeyPathSpend
    else
      let idx := if annex then witness.length - 1 else witness.length - 2
      match witness.get? idx with
      | none => .error .NoInscription
      | some el =>
          (parse_inscriptions (el.instrs.length + 1) [] el.instrs).foldr
            (fun r acc =>
              match r, acc with
              | .error e, _ => .error e
              | _, .error e => .error e
              | .ok i, .ok is => .ok (i :: is))
            (.ok [])

/-- The per-input accumulation loop of `Inscription::from_transaction`:
inputs whose witness is absent or fails to parse contribute nothing. -/
def from_transactionAux : Nat → List TxIn → List TransactionInscription
  | _, [] => []
  | index, txin :: rest =>
      (match txin.witness with
       | none => []
       | some w =>
           match InscriptionParser.parse w with
           | .error _ => []
           | .ok inss => inss.enum.map (fun p => ⟨p.2, index, p.1⟩))
      ++ from_transactionAux (index + 1) rest

/-- `Inscription::from_transaction`. -/
def from_transaction (tx : Tx) : List TransactionInscription :=
  from_transactionAux 0 tx.inputs

/-! ## The inscription tracking engine (`src/block.rs`) -/

def UNBOUND_INSCRIPTIONS : String := "unbound_inscriptions"

def NEXT_CURSED_ID_NUMBER : String := "next_cursed_id_number"

def NEXT_ID_NUMBER : String := "next_id_number"

def LOST_SATS : String := "lost_sats"

def INDEXED_HEIGHT : String := "indexed_height"

/-- `unbound_outpoint()`: the null txid **with a trailing `:0`**. -/
def unbound_outpoint : String := null_hash ++ ":0"

/-- `format!("{}:{}", txid, vout)`. -/
def outKey (txid : String) (vout : Nat) : String := txid ++ ":" ++ toString vout

/-- `format!("/{}:{}", id, off)`: one entry of an `output_inscription`
slash-list. -/
def satEntry (id : String) (off : Nat) : String :=
  "/" ++ id ++ ":" ++ toString off

/-- Rust `str::replace`: scan left to right, replacing every
non-overlapping occurrence of `pat` by `to` (structural fuel recursion;
`s.length` steps always suffice). -/
def replaceFuel (pat rep : List Char) : Nat → List Char → List Char
  | 0, s => s
  | _ + 1, [] => []
  | fuel + 1, c :: rest =>
      if pat ≠ [] ∧ pat.isPrefixOf (c :: rest) then
        rep ++ replaceFuel pat rep fuel ((c :: rest).drop pat.length)
      else c :: replaceFuel pat rep fuel rest

/-- Rust `str::replace` on strings (`rep` is the replacement). -/
def strReplace (s pat rep : String) : String :=
  String.mk (replaceFuel pat.data rep.data s.data.length s.data)

/-- Rust `str::split` by a non-empty string pattern: cut at each
non-overlapping occurrence, keeping empty pieces (structural fuel
recursion; `s.length + 1` steps always suffice). -/
def splitListAux (pat : List Char) : Nat → List Char → List Char → List (List Char)
  | 0, acc, s => [acc.reverse ++ s]
  | _ + 1, acc, [] => [acc.reverse]
  | fuel + 1, acc, c :: rest =>
      if pat ≠ [] ∧ pat.isPrefixOf (c :: rest) then
        acc.reverse :: splitListAux pat fuel [] ((c :: rest).drop pat.length)
      else splitListAux pat fuel (c :: acc) rest

/-- Rust `str::split` on strings (the engine splits on "/" and ":"). -/
def strSplit (s pat : String) : List String :=
  (splitListAux pat.data (s.data.length + 1) [] s.data).map String.mk

/-- Rust `str::parse::<u64>` on ASCII decimal digits: `none` on empty
or non-digit input and on overflow past `u64::MAX`. -/
def parseU64Aux : List Char → Nat → Option Nat
  | [], acc => some acc
  | c :: rest, acc =>
      if c.toNat < 48 ∨ 57 < c.toNat then none
      else
        if acc * 10 + (c.toNat - 48) < 2 ^ 64 then
          parseU64Aux rest (acc * 10 + (c.toNat - 48))
        else none

def parseU64 (s : String) : Option Nat :=
  match s.data with
  | [] => none
  | l => parseU64Aux l 0

inductive Origin where
  | new (cursed : Bool) (unbound : Bool) (inscription : Inscription)
  | old (old_output : String) (old_offset : Nat)
  deriving DecidableEq

structure Flotsam where
  inscription_id : String
  offset : Nat
  origin : Origin
  deriving DecidableEq

/-- The effective unbound flag `update_inscription_state` computes from
the origin: an `Old` flotsam is never unbound, a `New` one carries its
flag. -/
def Flotsam.effUnbound (f : Flotsam) : Bool :=
  match f.origin with
  | .new _ unbound _ => unbound
  | .old _ _ => false

/-- The five engine tables. -/
inductive Table where
  | status
  | output_value
  | id_inscription
  | inscription_output
  | output_inscription
  deriving DecidableEq

/-- A durability event: a direct `DB::put`, or a `DB::write` batch
commit, on one of the five tables. -/
inductive Ev where
  | putEv (t : Table)
  | commitEv (t : Table)
  deriving DecidableEq

structure InscribeEntry where
  id : Int
  inscription_id : String
  inscription : Inscription
  txid : String
  vout : Nat
  to_address : Option String
  height : Nat
  timestamp : Nat
  deriving DecidableEq

structure TransferEntry where
  inscription_id : String
  from_output : String
  from_offset : Nat
  -- the source names this field `to`, a reserved word here
  to_address : Option String
  txid : String
  vout : Nat
  offset : Nat
  height : Nat
  timestamp : Nat
  deriving DecidableEq

/-- The five persistent tables (the LevelDB handles owned by `Ordi`). -/
structure Store where
  status : KV String Bytes
  output_value : KV String Bytes
  id_inscription : KV Bytes String
  inscription_output : KV String String
  output_inscription : KV String String
  deriving DecidableEq

def Store.empty : Store := ⟨[], [], [], [], []⟩

/-- `InscriptionUpdater` (the per-block engine).  Handler registries are
lists of opaque handler identities; `inscribe_calls` / `transfer_calls`
record each synchronous invocation.  `events` is the durability trace. -/
structure Engine where
  height : Nat
  timestamp : Nat
  status : KV String Bytes
  output_value : KV String Bytes
  id_inscription : KV Bytes String
  inscription_output : KV String String
  output_inscription : KV String String
  status_wb : WriteBatch String Bytes
  output_value_wb : WriteBatch String Bytes
  id_inscription_wb : WriteBatch Bytes String
  inscription_output_wb : WriteBatch String String
  output_inscription_wb : WriteBatch String String
  flotsam : List Flotsam
  reward : Nat
  unbound_inscriptions : Nat
  next_number : Int
  next_cursed_number : Int
  lost_sats : Nat
  output_inscription_cache : KV String String
  inscribe_updaters : List Nat
  transfer_updaters : List Nat
  inscribe_calls : List (Nat × InscribeEntry)
  transfer_calls : List (Nat × TransferEntry)
  events : List Ev
  deriving DecidableEq

/-- `status_value_u64` (missing key defaults to eight zero bytes). -/
def status_value_u64 (st : KV String Bytes) (k : String) : Nat :=
  u64FromLE ((st.get k).getD (List.replicate 8 0))

/-- `status_value_i64`. -/
def status_value_i64 (st : KV String Bytes) (k : String) : Int :=
  i64FromLE ((st.get k).getD (List.replicate 8 0))

/-- `InscriptionUpdater::new`: load the five counters from `status`;
a stored `next_cursed_id_number` of `0` is fixed up to `-1`. -/
def InscriptionUpdater.new (height timestamp : Nat) (s : Store)
    (inscribe_updaters transfer_updaters : List Nat) : Engine :=
  let c0 := status_value_i64 s.status NEXT_CURSED_ID_NUMBER
  { height := height
    timestamp := timestamp
    status := s.status
    output_value := s.output_value
    id_inscription := s.id_inscription
    inscription_output := s.inscription_output
    output_inscription := s.output_inscription
    status_wb := []
    output_value_wb := []
    id_inscription_wb := []
    inscription_output_wb := []
    output_inscription_wb := []
    flotsam := []
    reward := Height.subsidy height
    unbound_inscriptions := status_value_u64 s.status UNBOUND_INSCRIPTIONS
    next_number := status_value_i64 s.status NEXT_ID_NUMBER
    next_cursed_number := if c0 = 0 then c0 - 1 else c0
    lost_sats := status_value_u64 s.status LOST_SATS
    output_inscription_cache := []
    inscribe_updaters := inscribe_updaters
    transfer_updaters := transfer_updaters
    inscribe_calls := []
    transfer_calls := []
    events := [] }

/-- `update_inscription_state` (lines 462-588 of `src/block.rs`). -/
def update_inscription_state (e : Engine) (flotsam : Flotsam) (new_txid : String)
    (vout : Nat) (offset : Nat) (address : Option String) : Engine :=
  let step1 : Engine × Bool :=
    match flotsam.origin with
    | .old old_output old_offset =>
        let inscription_value :=
          match e.output_inscription_cache.get old_output with
          | some v => v
          | none => (e.output_inscription.get old_output).getD ""
        let pat := satEntry flotsam.inscription_id old_offset
        let cache1 := e.output_inscription_cache.put old_output
          (strReplace inscription_value pat "")
        let entry : TransferEntry :=
          { inscription_id := flotsam.inscription_id
            from_output := old_output
            from_offset := old_offset
            to_address := address
            txid := new_txid
            vout := vout
            offset := offset
            height := e.height
            timestamp := e.timestamp }
        ({ e with
            output_inscription_cache := cache1
            transfer_calls := e.transfer_calls ++
              e.transfer_updaters.map (fun h => (h, entry)) },
         false)
    | .new cursed unbound inscription =>
        let p : Engine × Int :=
          if cursed then
            ({ e with
                next_cursed_number := e.next_cursed_number - 1
                status := e.status.put flotsam.inscription_id (i64LE e.next_cursed_number)
                events := e.events ++ [Ev.putEv Table.status] },
             e.next_cursed_number)
          else
            ({ e with next_number := e.next_number + 1 }, e.next_number)
        let e1 := p.1
        let number := p.2
        let entry : InscribeEntry :=
          { id := number
            inscription_id := flotsam.inscription_id
            inscription := inscription
            txid := new_txid
            vout := vout
            to_address := address
            height := e.height
            timestamp := e.timestamp }
        ({ e1 with
            id_inscription_wb := e1.id_inscription_wb ++
              [WOp.put (i64LE number) flotsam.inscription_id]
            inscribe_calls := e1.inscribe_calls ++
              e1.inscribe_updaters.map (fun h => (h, entry)) },
         unbound)
  let e4 := step1.1
  let unbound := step1.2
  let p2 : Engine × String :=
    if unbound then
      ({ e4 with unbound_inscriptions := add64 e4.unbound_inscriptions 1 },
       unbound_outpoint ++ ":" ++ toString e4.unbound_inscriptions)
    else
      (e4, outKey new_txid vout)
  let e5 := p2.1
  let real_new_txid := p2.2
  let previous_data :=
    match e5.output_inscription_cache.get real_new_txid with
    | some v => v
    | none => (e5.output_inscription.get real_new_txid).getD ""
  { e5 with
      output_inscription_cache := e5.output_inscription_cache.put real_new_txid
        (previous_data ++ satEntry flotsam.inscription_id offset)
      inscription_output_wb := e5.inscription_output_wb ++
        [WOp.put flotsam.inscription_id real_new_txid] }

/-- The curse computation (lines 332-341). -/
def computeCurse (ti : TransactionInscription)
    (inscribed_offsets : KV Nat (String × Nat)) (offset : Nat) : Option Curse :=
  if ti.tx_in_index ≠ 0 then some .NotInFirstInput
  else if ti.tx_in_offset ≠ 0 then some .NotAtOffsetZero
  else if (inscribed_offsets.get offset).isSome then some .Reinscription
  else none

/-- The cursed computation (lines 343-366).  `none` models the `unwrap`
panic, unreachable because a `Reinscription` curse implies the offset is
inscribed. -/
def computeCursed (status : KV String Bytes) (curse : Option Curse)
    (inscribed_offsets : KV Nat (String × Nat)) (offset : Nat) : Option Bool :=
  match curse with
  | some .Reinscription =>
      match inscribed_offsets.get offset with
      | none => none
      | some (iid, cnt) =>
          let first_reinscription : Bool := cnt == 0
          let initial_inscription_is_cursed : Bool :=
            status_value_i64 status iid != 0
          some (!(first_reinscription && initial_inscription_is_cursed))
  | some _ => some true
  | none => some false

/-- `inscribed_offsets.entry(offset).and_modify(count += 1).or_insert((id, 0))`. -/
def bumpOffset (m : KV Nat (String × Nat)) (offset : Nat) (id : String) :
    KV Nat (String × Nat) :=
  match m.get offset with
  | some (iid, cnt) => m.put offset (iid, cnt + 1)
  | none => m.put offset (id, 0)

/-- The drain of pending envelopes for one input (the `while let` at
lines 325-386). -/
def drainNew (status : KV String Bytes) (tx_hash : String) (input_index : Nat)
    (offset : Nat) (input_value : Nat)
    (inscribed_offsets : KV Nat (String × Nat)) :
    List TransactionInscription → List Flotsam → Nat →
    Option (List TransactionInscription × List Flotsam × Nat)
  | [], floats, id_counter => some ([], floats, id_counter)
  | ti :: pending, floats, id_counter =>
      if ti.tx_in_index ≠ input_index then some (ti :: pending, floats, id_counter)
      else
        let inscription_id := tx_hash ++ "i" ++ toString id_counter
        let curse := computeCurse ti inscribed_offsets offset
        match computeCursed status curse inscribed_offsets offset with
        | none => none
        | some cursed =>
            let unbound : Bool := input_value == 0 || ti.tx_in_offset != 0
            drainNew status tx_hash input_index offset input_value inscribed_offsets
              pending
              (floats ++ [⟨inscription_id, offset, .new cursed unbound ti.inscription⟩])
              (id_counter + 1)

/-- Parse one `id:off` chunk of a slash-list (the `split(":")`,
indexing and `parse::<u64>()` of lines 266-273); `none` models the
panics on malformed data. -/
def parseChunk (chunk : String) : Option (String × Nat) :=
  match strSplit chunk ":" with
  | id :: off :: _ => (parseU64 off).map (fun o => (id, o))
  | _ => none

/-- Parse a `/id1:off1/id2:off2/…` value. -/
def parseInscriptionsStr (s : String) : Option (List (String × Nat)) :=
  ((strSplit s "/").drop 1).mapM parseChunk

/-- Turn the parsed entries of a consumed output into `Old` flotsam and
bump `inscribed_offsets` (lines 261-290). -/
def collectOld (prev : String) (input_value : Nat) :
    List (String × Nat) → List Flotsam → KV Nat (String × Nat) →
    List Flotsam × KV Nat (String × Nat)
  | [], floats, m => (floats, m)
  | (id, ioff) :: rest, floats, m =>
      let offset := add64 input_value ioff
      collectOld prev input_value rest
        (floats ++ [⟨id, offset, .old prev ioff⟩])
        (bumpOffset m offset id)

/-- The mutable locals of the input pass. -/
structure TxScan where
  cache : KV String String
  pending : List TransactionInscription
  floats : List Flotsam
  inscribed_offsets : KV Nat (String × Nat)
  input_value : Nat
  id_counter : Nat
  wb : WriteBatch String Bytes
  deriving DecidableEq

/-- The input pass (lines 238-394).  `none` is an aborted replay (a
failed RPC fallback or a panic on malformed stored data). -/
def processInputs (rpc : String → Nat → Option Nat) (height : Nat)
    (status : KV String Bytes) (output_inscription : KV String String)
    (output_value : KV String Bytes) (tx_hash : String) :
    Nat → List TxIn → TxScan → Option TxScan
  | _, [], sc => some sc
  | input_index, tx_in :: rest, sc =>
      if tx_in.outpoint.is_null then
        processInputs rpc height status output_inscription output_value tx_hash
          (input_index + 1) rest
          { sc with input_value := add64 sc.input_value (Height.subsidy height) }
      else
        let previous_output := outKey tx_in.outpoint.txid tx_in.outpoint.index
        let p1 : String × KV String String :=
          match sc.cache.get previous_output with
          | some v => (v, sc.cache)
          | none =>
              let value := (output_inscription.get previous_output).getD ""
              if value ≠ "" then (value, sc.cache.put previous_output value)
              else (value, sc.cache)
        let inscriptions_str := p1.1
        let cache1 := p1.2
        match (if inscriptions_str ≠ "" then parseInscriptionsStr inscriptions_str
               else some []) with
        | none => none
        | some pairs =>
            let p2 := collectOld previous_output sc.input_value pairs
              sc.floats sc.inscribed_offsets
            let floats1 := p2.1
            let offsets1 := p2.2
            let offset := sc.input_value
            match (match output_value.get previous_output with
                   | some bs => some (u64FromLE bs)
                   | none => rpc tx_in.outpoint.txid tx_in.outpoint.index) with
            | none => none
            | some v =>
                let input_value1 := add64 sc.input_value v
                match drainNew status tx_hash input_index offset input_value1 offsets1
                    sc.pending floats1 sc.id_counter with
                | none => none
                | some (pending1, floats2, id_counter1) =>
                    processInputs rpc height status output_inscription output_value
                      tx_hash (input_index + 1) rest
                      { cache := cache1
                        pending := pending1
                        floats := floats2
                        inscribed_offsets := offsets1
                        input_value := input_value1
                        id_counter := id_counter1
                        wb := sc.wb ++ [WOp.del previous_output] }

/-- Stable insertion before the first strictly larger offset. -/
def insertFlotsam (f : Flotsam) : List Flotsam → List Flotsam
  | [] => [f]
  | g :: rest =>
      if g.offset < f.offset then g :: insertFlotsam f rest else f :: g :: rest

/-- `sort_by_key(|float| float.offset)` (a stable sort). -/
def sortFlotsam : List Flotsam → List Flotsam
  | [] => []
  | f :: rest => insertFlotsam f (sortFlotsam rest)

/-- The inner drain of the output pass (lines 420-435). -/
def drainOutputFlotsam (tx_hash : String) (vout : Nat) (end_ : Nat)
    (output_value_cursor : Nat) (address : Option String) :
    Engine → List Flotsam → Engine × List Flotsam
  | e, [] => (e, [])
  | e, f :: rest =>
      if f.offset < end_ then
        drainOutputFlotsam tx_hash vout end_ output_value_cursor address
          (update_inscription_state e f tx_hash vout
            (sub64 f.offset output_value_cursor) address)
          rest
      else (e, f :: rest)

/-- The output pass (lines 413-438). -/
def processOutputs (tx_hash : String) :
    Engine → Nat → Nat → WriteBatch String Bytes → List TxOut → List Flotsam →
    Engine × Nat × WriteBatch String Bytes × List Flotsam
  | e, cursor, _, wb, [], floats => (e, cursor, wb, floats)
  | e, cursor, vout, wb, out :: outs, floats =>
      let wb1 := wb ++ [WOp.put (outKey tx_hash vout) (u64LE out.value)]
      let end_ := add64 cursor out.value
      let p := drainOutputFlotsam tx_hash vout end_ cursor out.address e floats
      processOutputs tx_hash p.1 end_ (vout + 1) wb1 outs p.2

/-- The lost-sats placement of flotsam past the coinbase outputs
(lines 443-448). -/
def coinbaseTail (cursor : Nat) : Engine → List Flotsam → Engine
  | e, [] => e
  | e, f :: rest =>
      coinbaseTail cursor
        (update_inscription_state e f null_hash 4294967295
          (sub64 (add64 e.lost_sats f.offset) cursor) none)
        rest

/-- Commit the per-transaction `output_value` batch (line 440). -/
def commitTxOutputValue (e : Engine) (wb : WriteBatch String Bytes) : Engine :=
  { e with
      output_value := e.output_value.write wb
      events := e.events ++ [Ev.commitEv Table.output_value] }

/-- The coinbase tail of the replay: place the remaining flotsam and
account the lost sats (lines 442-450). -/
def coinbaseFinish (e : Engine) (cursor : Nat) (remaining : List Flotsam) : Engine :=
  let e5 := coinbaseTail cursor e remaining
  { e5 with lost_sats := add64 e5.lost_sats (sub64 e5.reward cursor) }

/-- The non-coinbase tail: push escaped flotsam into the block-level
queue and accumulate the fee into `reward` (lines 452-456). -/
def nonCoinbaseFinish (e : Engine) (cursor input_value : Nat)
    (remaining : List Flotsam) : Engine :=
  { e with
      flotsam := e.flotsam ++ remaining.map (fun f =>
        { f with offset := sub64 (add64 e.reward f.offset) cursor })
      reward := add64 e.reward (sub64 input_value cursor) }

/-- The is-coinbase test of lines 399-404 (first input has a null
outpoint). -/
def txIsCoinbase (tx : Tx) : Bool :=
  ((tx.inputs.head?).map (fun i => i.outpoint.is_null)).getD false

/-- `index_inscriptions_in_transaction` (lines 226-460). -/
def index_inscriptions_in_transaction (rpc : String → Nat → Option Nat)
    (e : Engine) (tx : Tx) : Option Engine :=
  let sc0 : TxScan :=
    { cache := e.output_inscription_cache
      pending := from_transaction tx
      floats := []
      inscribed_offsets := []
      input_value := 0
      id_counter := 0
      wb := [] }
  match processInputs rpc e.height e.status e.output_inscription e.output_value
      tx.hash 0 tx.inputs sc0 with
  | none => none
  | some sc =>
      let e1 : Engine := { e with output_inscription_cache := sc.cache }
      let is_coinbase := txIsCoinbase tx
      let p0 : List Flotsam × Engine :=
        if is_coinbase then (sc.floats ++ e1.flotsam, { e1 with flotsam := [] })
        else (sc.floats, e1)
      let p := processOutputs tx.hash p0.2 0 0 sc.wb tx.outputs (sortFlotsam p0.1)
      let e4 := commitTxOutputValue p.1 p.2.2.1
      some (if is_coinbase then coinbaseFinish e4 p.2.1 p.2.2.2
            else nonCoinbaseFinish e4 p.2.1 sc.input_value p.2.2.2)

/-- `flush_update`, step 1 (lines 591-595): batch the five metadata
values into `status_wb`. -/
def flushStatusBatch (e : Engine) : Engine :=
  { e with status_wb := e.status_wb ++
      [WOp.put UNBOUND_INSCRIPTIONS (u64LE e.unbound_inscriptions),
       WOp.put NEXT_ID_NUMBER (i64LE e.next_number),
       WOp.put NEXT_CURSED_ID_NUMBER (i64LE e.next_cursed_number),
       WOp.put LOST_SATS (u64LE e.lost_sats),
       WOp.put INDEXED_HEIGHT (u64LE e.height)] }

/-- `flush_update`, step 2 (lines 597-599). -/
def flushOutputValue (e : Engine) : Engine :=
  if e.output_value_wb.length > 0 then
    { e with
        output_value := e.output_value.write e.output_value_wb
        events := e.events ++ [Ev.commitEv Table.output_value] }
  else e

/-- `flush_update`, step 3 (lines 601-603). -/
def flushIdInscription (e : Engine) : Engine :=
  if e.id_inscription_wb.length > 0 then
    { e with
        id_inscription := e.id_inscription.write e.id_inscription_wb
        events := e.events ++ [Ev.commitEv Table.id_inscription] }
  else e

/-- `flush_update`, step 4 (lines 605-608). -/
def flushInscriptionOutput (e : Engine) : Engine :=
  if e.inscription_output_wb.length > 0 then
    { e with
        inscription_output := e.inscription_output.write e.inscription_output_wb
        events := e.events ++ [Ev.commitEv Table.inscription_output] }
  else e

/-- `flush_update`, step 5 (lines 610-617): materialize the
write-through cache into `output_inscription_wb` — empty values become
deletes. -/
def materializeCache (e : Engine) : Engine :=
  { e with output_inscription_wb := e.output_inscription_wb ++
      e.output_inscription_cache.map (fun p =>
        if p.2 ≠ "" then WOp.put p.1 p.2 else WOp.del p.1) }

/-- `flush_update`, step 6 (lines 619-622). -/
def flushOutputInscription (e : Engine) : Engine :=
  if e.output_inscription_wb.length > 0 then
    { e with
        output_inscription := e.output_inscription.write e.output_inscription_wb
        events := e.events ++ [Ev.commitEv Table.output_inscription] }
  else e

/-- `flush_update`, step 7 (lines 624-626): the `status` batch commits
last. -/
def flushStatus (e : Engine) : Engine :=
  if e.status_wb.length > 0 then
    { e with
        status := e.status.write e.status_wb
        events := e.events ++ [Ev.commitEv Table.status] }
  else e

/-- `flush_update` (lines 590-629): the seven steps above, in source
order. -/
def flush_update (e : Engine) : Engine :=
  flushStatus (flushOutputInscription (materializeCache (flushInscriptionOutput
    (flushIdInscription (flushOutputValue (flushStatusBatch e))))))

/-- The replay order of `index_transactions`:
`txs.iter().skip(1).chain(txs.first())`. -/
def txOrder {α : Type} (txs : List α) : List α := txs.drop 1 ++ txs.take 1

/-- Fold the per-transaction replay over a transaction list. -/
def runTxs (rpc : String → Nat → Option Nat) : Engine → List Tx → Option Engine
  | e, [] => some e
  | e, tx :: rest =>
      match index_inscriptions_in_transaction rpc e tx with
      | none => none
      | some e1 => runTxs rpc e1 rest

/-- `BlockUpdater::index_transactions`: replay in coinbase-last order,
then `flush_update`. -/
def index_transactions (rpc : String → Nat → Option Nat) (height : Nat)
    (block : Block) (s : Store) (iu tu : List Nat) : Option Engine :=
  (runTxs rpc (InscriptionUpdater.new height block.timestamp s iu tu)
      (txOrder block.txs)).map flush_update

/-- The five stores an engine leaves behind. -/
def Engine.toStore (e : Engine) : Store :=
  ⟨e.status, e.output_value, e.id_inscription, e.inscription_output,
   e.output_inscription⟩

/-- One fully processed block, store to store. -/
def indexBlock (rpc : String → Nat → Option Nat) (height : Nat) (block : Block)
    (s : Store) (iu tu : List Nat) : Option Store :=
  (index_transactions rpc height block s iu tu).map Engine.toStore

/-! ## Block-index loading (`src/bitcoin/index.rs`) -/

def BLOCK_VALID_CHAIN : Nat := 4

def BLOCK_HAVE_DATA : Nat := 8

structure IndexEntry where
  block_hash : Bytes
  blk_index : Nat
  data_offset : Nat
  version : Nat
  height : Nat
  status : Nat
  tx_count : Nat
  deriving DecidableEq

/-- How `parse_index_for_ordinals` can abort: a `panic!`/`expect`, the
`IOError` of a short read, or the `InvalidHeight` error of the post-load
check. -/
inductive IndexAbort where
  | panicAbort
  | ioError
  | invalidHeight (entry_height : Nat) (key_height : Nat)
  deriving DecidableEq

/-- `read_varint` (the "Bitcoin varint": seven-bit big-endian with a
`+1` carry on every continuation byte).  `ioError` models `read_u8`
hitting the end of the value; `panicAbort` the two
`panic!("size too large")` sites. -/
def read_varintAux : Nat → Bytes → Except IndexAbort (Nat × Bytes)
  | _, [] => .error .ioError
  | n, ch :: rest =>
      if n > (2 ^ 64 - 1) >>> 7 then .error .panicAbort
      else
        if 128 ≤ ch % 256 then
          if (n <<< 7) + ch % 128 = 2 ^ 64 - 1 then .error .panicAbort
          else read_varintAux ((n <<< 7) + ch % 128 + 1) rest
        else .ok ((n <<< 7) + ch % 128, rest)

def read_varint (bs : Bytes) : Except IndexAbort (Nat × Bytes) :=
  read_varintAux 0 bs

/-- `IndexEntry::from_leveldb_kv` (the key has already been stripped of
its `b'b'` prefix; `expect("malformed blockhash")` panics unless it is
exactly 32 bytes). -/
def IndexEntry.from_leveldb_kv (key : Bytes) (value : Bytes) :
    Except IndexAbort IndexEntry :=
  if key.length ≠ 32 then .error .panicAbort
  else
    match read_varint value with
    | .error a => .error a
    | .ok (version, r1) =>
      match read_varint r1 with
      | .error a => .error a
      | .ok (height, r2) =>
        match read_varint r2 with
        | .error a => .error a
        | .ok (status, r3) =>
          match read_varint r3 with
          | .error a => .error a
          | .ok (tx_count, r4) =>
            match read_varint r4 with
            | .error a => .error a
            | .ok (blk_index, r5) =>
              match read_varint r5 with
              | .error a => .error a
              | .ok (data_offset, _r6) =>
                  .ok { block_hash := key, blk_index := blk_index,
                        data_offset := data_offset, version := version,
                        height := height, status := status,
                        tx_count := tx_count }

/-- `is_block_index_entry`: first key byte is `b'b'` (98);
`first().unwrap()` panics on an empty key. -/
def is_block_index_entry (data : Bytes) : Except IndexAbort Bool :=
  match data with
  | [] => .error .panicAbort
  | b :: _ => .ok (b == 98)

/-- The mutable locals of the scan loop of `parse_index_for_ordinals`
(`BLK::new` handles are opaque `Unit`s). -/
structure IndexScan where
  index : KV Nat IndexEntry
  max_height : Nat
  max_height_in_blk : KV Nat Nat
  blks : KV Nat Unit
  deriving DecidableEq

/-- The iterator loop of `parse_index_for_ordinals` (lines 63-85):
decode each `b'b'`-keyed row, keep those whose status has the
`BLOCK_VALID_CHAIN | BLOCK_HAVE_DATA | BLOCK_VALID_CHAIN` bits, and
insert into the height-keyed map. -/
def scanIndexRows : List (Bytes × Bytes) → IndexScan → Except IndexAbort IndexScan
  | [], st => .ok st
  | (key, value) :: rest, st =>
      match is_block_index_entry key with
      | .error a => .error a
      | .ok false => scanIndexRows rest st
      | .ok true =>
          match IndexEntry.from_leveldb_kv (key.drop 1) value with
          | .error a => .error a
          | .ok record =>
              if record.status &&& (BLOCK_VALID_CHAIN ||| BLOCK_HAVE_DATA |||
                  BLOCK_VALID_CHAIN) > 0 then
                let mhb :=
                  match st.max_height_in_blk.get record.blk_index with
                  | some h =>
                      if record.height > h then
                        st.max_height_in_blk.put record.blk_index record.height
                      else st.max_height_in_blk
                  | none => st.max_height_in_blk.put record.blk_index record.height
                let blks1 :=
                  match st.blks.get record.blk_index with
                  | some _ => st.blks
                  | none => st.blks.put record.blk_index ()
                scanIndexRows rest
                  { index := st.index.put record.height record
                    max_height :=
                      if record.height > st.max_height then record.height
                      else st.max_height
                    max_height_in_blk := mhb
                    blks := blks1 }
              else scanIndexRows rest st

/-- The post-load check (lines 87-91). -/
def checkHeights : List (Nat × IndexEntry) → Except IndexAbort Unit
  | [] => .ok ()
  | (h, entry) :: rest =>
      if entry.height ≠ h then .error (.invalidHeight entry.height h)
      else checkHeights rest

/-- `parse_index_for_ordinals`, on the iterated rows of the block-index
database. -/
def parse_index_for_ordinals (rows : List (Bytes × Bytes)) :
    Except IndexAbort (KV Nat IndexEntry × Nat × KV Nat Nat × KV Nat Unit) :=
  match scanIndexRows rows ⟨[], 0, [], []⟩ with
  | .error a => .error a
  | .ok st =>
      match checkHeights st.index with
      | .error a => .error a
      | .ok _ => .ok (st.index, st.max_height, st.max_height_in_blk, st.blks)

/-- Discriminator: did the result avoid the `InvalidHeight` branch? -/
def notInvalidHeight {α : Type} : Except IndexAbort α → Bool
  | .error (.invalidHeight _ _) => false
  | _ => true

/-! ## Theorems -/

instance {κ ν : Type} : Membership (κ × ν) (KV κ ν) :=
  inferInstanceAs (Membership (κ × ν) (List (κ × ν)))

theorem KV.mem_eraseKey {κ ν : Type} [DecidableEq κ] (s : KV κ ν) (k : κ)
    (p : κ × ν) (h : p ∈ s.eraseKey k) : p ∈ s := by
  induction s with
  | nil => cases h
  | cons q rest ih =>
    obtain ⟨k1, v1⟩ := q
    by_cases h1 : k1 = k
    · rw [KV.eraseKey, if_pos h1] at h
      exact List.mem_cons_of_mem _ (ih h)
    · rw [KV.eraseKey, if_neg h1] at h
      rcases List.mem_cons.mp h with h2 | h2
      · exact h2 ▸ List.mem_cons_self _ _
      · exact List.mem_cons_of_mem _ (ih h2)

theorem KV.mem_put {κ ν : Type} [DecidableEq κ] (s : KV κ ν) (k : κ) (v : ν)
    (p : κ × ν) (h : p ∈ s.put k v) : p = (k, v) ∨ p ∈ s := by
  rcases List.mem_cons.mp h with h1 | h1
  · exact Or.inl h1
  · exact Or.inr (KV.mem_eraseKey s k p h1)

/-- The scan loop only ever inserts a record under its own height. -/
theorem scanIndexRows_heights (rows : List (Bytes × Bytes)) :
    ∀ st st' : IndexScan, scanIndexRows rows st = .ok st' →
      (∀ p ∈ st.index, (p : Nat × IndexEntry).2.height = p.1) →
      ∀ p ∈ st'.index, p.2.height = p.1 := by
  induction rows with
  | nil =>
    intro st st' hrun hinv
    rw [scanIndexRows] at hrun
    cases hrun
    exact hinv
  | cons row rest ih =>
    intro st st' hrun hinv
    obtain ⟨key, value⟩ := row
    rw [scanIndexRows] at hrun
    split at hrun
    · cases hrun
    · exact ih st st' hrun hinv
    · split at hrun
      · cases hrun
      · split at hrun
        · refine ih _ st' hrun ?_
          intro p hp
          rcases KV.mem_put _ _ _ p hp with h1 | h1
          · rw [h1]
          · exact hinv p h1
        · exact ih st st' hrun hinv

theorem checkHeights_ok (l : List (Nat × IndexEntry))
    (h : ∀ p ∈ l, (p : Nat × IndexEntry).2.height = p.1) :
    checkHeights l = .ok () := by
  induction l with
  | nil => rfl
  | cons p rest ih =>
    obtain ⟨hh, entry⟩ := p
    have he : entry.height = hh := h (hh, entry) (List.mem_cons_self _ _)
    rw [checkHeights, if_neg (by simp [he])]
    exact ih (fun q hq => h q (List.mem_cons_of_mem _ hq))

/-- Aborts that are not the `InvalidHeight` error. -/
def IndexAbort.isInvalidHeight : IndexAbort → Bool
  | .invalidHeight _ _ => true
  | _ => false

theorem read_varintAux_not_invalid (bs : Bytes) :
    ∀ n a, read_varintAux n bs = .error a → a.isInvalidHeight = false := by
  induction bs with
  | nil =>
    intro n a h
    rw [read_varintAux] at h
    cases h
    rfl
  | cons ch rest ih =>
    intro n a h
    rw [read_varintAux] at h
    split at h
    · cases h
      rfl
    · split at h
      · split at h
        · cases h
          rfl
        · exact ih _ a h
      · cases h

theorem read_varint_not_invalid (bs : Bytes) (a : IndexAbort)
    (h : read_varint bs = .error a) : a.isInvalidHeight = false :=
  read_varintAux_not_invalid bs 0 a h

theorem from_leveldb_kv_not_invalid (key value : Bytes) (a : IndexAbort)
    (h : IndexEntry.from_leveldb_kv key value = .error a) :
    a.isInvalidHeight = false := by
  rw [IndexEntry.from_leveldb_kv] at h
  split at h
  · cases h
    rfl
  · repeat' split at h
    all_goals cases h
    all_goals exact read_varint_not_invalid _ _ (by assumption)

theorem scanIndexRows_not_invalid (rows : List (Bytes × Bytes)) :
    ∀ st a, scanIndexRows rows st = .error a → a.isInvalidHeight = false := by
  induction rows with
  | nil =>
    intro st a h
    rw [scanIndexRows] at h
    cases h
  | cons row rest ih =>
    intro st a h
    obtain ⟨key, value⟩ := row
    rw [scanIndexRows] at h
    split at h
    · cases h
      rename_i heq
      cases key with
      | nil => rw [is_block_index_entry] at heq; cases heq; rfl
      | cons x xs => rw [is_block_index_entry] at heq; cases heq
    · exact ih st a h
    · split at h
      · cases h
        rename_i heq
        exact from_leveldb_kv_not_invalid _ _ _ heq
      · split at h
        · exact ih _ a h
        · exact ih st a h

/-- C10: index loading never fails with `InvalidHeight`: the entries map
is keyed by each record's own `height` field at insertion, so the
post-load check `entry.height == key` always passes and the
`IndexError::InvalidHeight` branch of `parse_index_for_ordinals` is
unreachable, for every input block-index database. -/
theorem parse_index_never_invalid_height (rows : List (Bytes × Bytes)) :
    notInvalidHeight (parse_index_for_ordinals rows) = true := by
  rw [parse_index_for_ordinals]
  split
  · rename_i a heq
    have hni := scanIndexRows_not_invalid rows _ a heq
    cases a with
    | panicAbort => rfl
    | ioError => rfl
    | invalidHeight x y => rw [IndexAbort.isInvalidHeight] at hni; cases hni
  · rename_i st heq
    rw [checkHeights_ok st.index
      (scanIndexRows_heights rows _ st heq (fun p hp => by cases hp))]
    rfl

/-- C5: for every block [tx0, tx1, …], `index_transactions` folds the
replay over `txOrder`, which is exactly [tx1, …, tx_{n-1}, tx0]: the
non-coinbase transactions keep their relative order and all precede the
coinbase, and a single-transaction block replays just tx0, once. -/
theorem txOrder_coinbase_last {α : Type} (t : α) (ts : List α) :
    txOrder (t :: ts) = ts ++ [t] ∧ txOrder [t] = [t] := by
  constructor <;> simp [txOrder]

/-! Concrete fixtures shared by several scenarios. -/

/-- An RPC stub with no answers (no scenario below needs the fallback). -/
def rpc_none : String → Nat → Option Nat := fun _ _ => none

/-- The instruction stream of a minimal envelope
`OP_FALSE OP_IF "ord" OP_0 OP_ENDIF` (empty body). -/
def envInstrs1 : Instrs :=
  [.ok (.pushBytes []), .ok (.op OP_IF), .ok (.pushBytes PROTOCOL_ID),
   .ok (.pushBytes []), .ok (.op OP_ENDIF)]

/-- A two-element witness whose script element carries `envInstrs1`. -/
def envWitness1 : Witness :=
  [{ bytes := [1, 2], instrs := envInstrs1 }, { bytes := [3], instrs := [] }]

/-- A coinbase transaction claiming exactly `value`. -/
def coinbaseTx (hash : String) (value : Nat) : Tx :=
  { hash := hash
    inputs := [{ outpoint := ⟨null_hash, 4294967295⟩, witness := none }]
    outputs := [{ value := value, address := none }] }

/-! ### C1: the unbound destination key -/

/-- C1 (amended): `update_inscription_state` writes the destination key
`unbound_outpoint() ++ ":" ++ counter` — that is
`"<64 zero hex>:0:<N>"`, the null **outpoint** (null txid and vout 0)
followed by the counter, not the bare null txid followed by the counter
— to `inscription_output` and appends the flotsam under that key to the
`output_inscription` cache, and the counter increments by exactly 1 per
unbound placement; when the effective unbound flag is false the key is
`"<new_txid>:<vout>"`. -/
theorem update_state_destination (e : Engine) (f : Flotsam) (new_txid : String)
    (vout offset : Nat) (address : Option String) :
    (update_inscription_state e f new_txid vout offset address).inscription_output_wb
      = e.inscription_output_wb ++
        [WOp.put f.inscription_id
          (if f.effUnbound then
            null_hash ++ ":0" ++ ":" ++ toString e.unbound_inscriptions
          else outKey new_txid vout)]
    ∧ (update_inscription_state e f new_txid vout offset address).unbound_inscriptions
      = (if f.effUnbound then add64 e.unbound_inscriptions 1
         else e.unbound_inscriptions)
    ∧ ∃ prior : String,
        (update_inscription_state e f new_txid vout offset address).output_inscription_cache.get
          (if f.effUnbound then
            null_hash ++ ":0" ++ ":" ++ toString e.unbound_inscriptions
          else outKey new_txid vout)
        = some (prior ++ satEntry f.inscription_id offset) := by
  rcases hf : f.origin with ⟨cursed, unbound, insc⟩ | ⟨po, oo⟩
  · cases cursed <;> cases unbound <;>
      · simp [update_inscription_state, hf, Flotsam.effUnbound, unbound_outpoint,
          KV.get_put_same]
        exact ⟨_, rfl⟩
  · simp [update_inscription_state, hf, Flotsam.effUnbound, KV.get_put_same]
    exact ⟨_, rfl⟩

/-- C1 fixtures: an inscription in the first input at witness offset 0,
with total input value 0, so the effective unbound flag is true. -/
def c1_store : Store :=
  { status := [], output_value := [("aaaa:2", u64LE 0)], id_inscription := [],
    inscription_output := [], output_inscription := [] }

def c1_tx : Tx :=
  { hash := "ffff"
    inputs := [{ outpoint := ⟨"aaaa", 2⟩, witness := some envWitness1 }]
    outputs := [{ value := 0, address := none }] }

def c1_block : Block := ⟨5, [coinbaseTx "abab" 625000000, c1_tx]⟩

def c1_run : Option Engine := index_transactions rpc_none 767430 c1_block c1_store [] []

/-- C1 counterexample: replaying `c1_block` places the unbound
inscription under the key `"<64 zero hex>:0:0"`; the claim's key
`"<64 zero hex>:0"` (null txid, `':'`, counter 0) is a different
string. -/
theorem unbound_key_counterexample :
    (c1_run.map (fun e => e.inscription_output.get "ffffi0"))
      = some (some (null_hash ++ ":0:0"))
    ∧ (c1_run.map (fun e => e.output_inscription.get (null_hash ++ ":0:0")))
      = some (some "/ffffi0:0")
    ∧ (c1_run.map (fun e => status_value_u64 e.status UNBOUND_INSCRIPTIONS))
      = some 1
    ∧ decide ((null_hash ++ ":0:0" : String) = null_hash ++ ":0") = false := by
  decide

/-! ### C3: the reinscription-curse blessing rule -/

/-- C3: when the computed curse is `Reinscription` (first input, witness
offset 0, an already-inscribed offset), the cursed flag is
`!(first && initial_cursed)` where `first` holds iff the reinscription
count recorded at the offset is 0 and `initial_cursed` holds iff the
status value stored under the initial inscription id is nonzero; an id
absent from `status` (in particular any blessed id) yields
`initial_cursed = false`. -/
theorem computeCursed_reinscription (status : KV String Bytes)
    (m : KV Nat (String × Nat)) (ti : TransactionInscription)
    (off : Nat) (iid : String) (cnt : Nat)
    (hm : m.get off = some (iid, cnt)) :
    computeCursed status (some .Reinscription) m off =
      some (!((cnt == 0) && (status_value_i64 status iid != 0)))
    ∧ (ti.tx_in_index = 0 → ti.tx_in_offset = 0 →
        computeCurse ti m off = some .Reinscription)
    ∧ (status.get iid = none → status_value_i64 status iid = 0) := by
  refine ⟨?_, ?_, ?_⟩
  · rw [computeCursed, hm]
  · intro h0 h1
    rw [computeCurse, if_neg (by simp [h0]), if_neg (by simp [h1]),
      if_pos (by rw [hm]; rfl)]
  · intro h
    rw [status_value_i64, h]
    rfl

set_option maxRecDepth 8000 in
/-- C3 witness: a first reinscription over a cursed initial inscription
(status value −3) is blessed. -/
theorem computeCursed_reinscription_witness :
    (KV.get ([(5, ("x", 0))] : KV Nat (String × Nat)) 5 = some ("x", 0))
    ∧ (computeCursed [("x", i64LE (-3))] (some .Reinscription) [(5, ("x", 0))] 5 =
        some (!((0 == 0) && (status_value_i64 [("x", i64LE (-3))] "x" != 0)))
      ∧ ((TransactionInscription.mk ⟨none, none⟩ 0 0).tx_in_index = 0 →
          (TransactionInscription.mk ⟨none, none⟩ 0 0).tx_in_offset = 0 →
          computeCurse (TransactionInscription.mk ⟨none, none⟩ 0 0) [(5, ("x", 0))] 5
            = some .Reinscription)
      ∧ (KV.get ([("x", i64LE (-3))] : KV String Bytes) "x" = none →
          status_value_i64 [("x", i64LE (-3))] "x" = 0)) :=
  ⟨by decide,
   computeCursed_reinscription [("x", i64LE (-3))] [(5, ("x", 0))]
     (TransactionInscription.mk ⟨none, none⟩ 0 0) 5 "x" 0 (by decide)⟩

/-! ### C4: removal from the previous output's cached list -/

/-- C4 (amended): for a flotsam with `Old{prev, off_old}` origin,
`update_inscription_state` rewrites the cached `output_inscription`
value of the previous output with `String::replace`, which removes
**every** (non-overlapping) occurrence of `"/<id>:<off_old>"` — exactly
one when the pattern occurs once — and delivers one `TransferEntry` to
every registered transfer handler. -/
theorem update_state_old_origin (e : Engine) (f : Flotsam) (po : String) (oo : Nat)
    (new_txid : String) (vout offset : Nat) (address : Option String)
    (hf : f.origin = .old po oo) (hne : po ≠ outKey new_txid vout) :
    (update_inscription_state e f new_txid vout offset address).output_inscription_cache.get po
      = some (strReplace
              (match e.output_inscription_cache.get po with
               | some v => v
               | none => (e.output_inscription.get po).getD "")
              (satEntry f.inscription_id oo) "")
    ∧ (update_inscription_state e f new_txid vout offset address).transfer_calls
      = e.transfer_calls ++ e.transfer_updaters.map (fun h =>
          (h, { inscription_id := f.inscription_id, from_output := po,
                from_offset := oo, to_address := address, txid := new_txid,
                vout := vout, offset := offset, height := e.height,
                timestamp := e.timestamp })) := by
  constructor
  · simp [update_inscription_state, hf, KV.get_put_ne _ _ _ _ (Ne.symm hne),
      KV.get_put_same]
  · simp [update_inscription_state, hf]

/-- C4 fixtures: a cached value in which the pattern `/a:1` occurs
twice. -/
def c4_engine : Engine :=
  { InscriptionUpdater.new 767430 5 Store.empty [] [3] with
    output_inscription_cache := [("pppp:0", "/a:1/b:2/a:1")] }

def c4_result : Engine :=
  update_inscription_state c4_engine ⟨"a", 7, .old "pppp:0" 1⟩ "qqqq" 0 7 none

/-- C4 counterexample: removing `/a:1` from `"/a:1/b:2/a:1"` leaves
`"/b:2"` — both occurrences are gone, where removal of exactly one
occurrence (and the rest unchanged) would leave `"/b:2/a:1"`. -/
theorem replace_one_occurrence_counterexample :
    c4_result.output_inscription_cache.get "pppp:0" = some "/b:2"
    ∧ c4_result.transfer_calls.length = 1
    ∧ decide (("/b:2" : String) = "/b:2/a:1") = false := by
  decide

/-- C4 witness: a single-occurrence removal, with one registered
handler. -/
theorem update_state_old_origin_witness :
    ((⟨"a", 7, .old "rrrr:0" 1⟩ : Flotsam).origin = Origin.old "rrrr:0" 1
      ∧ "rrrr:0" ≠ outKey "qqqq" 0)
    ∧ ((update_inscription_state c4_engine ⟨"a", 7, .old "rrrr:0" 1⟩ "qqqq" 0 7
          none).output_inscription_cache.get "rrrr:0"
        = some (strReplace
            (match c4_engine.output_inscription_cache.get "rrrr:0" with
             | some v => v
             | none => (c4_engine.output_inscription.get "rrrr:0").getD "")
            (satEntry ("a" : String) 1) "")
      ∧ (update_inscription_state c4_engine ⟨"a", 7, .old "rrrr:0" 1⟩ "qqqq" 0 7
          none).transfer_calls
        = c4_engine.transfer_calls ++ c4_engine.transfer_updaters.map (fun h =>
            (h, { inscription_id := ("a" : String), from_output := "rrrr:0",
                  from_offset := 1, to_address := none, txid := "qqqq",
                  vout := 0, offset := 7, height := c4_engine.height,
                  timestamp := c4_engine.timestamp }))) :=
  ⟨⟨rfl, by decide⟩,
   update_state_old_origin c4_engine ⟨"a", 7, .old "rrrr:0" 1⟩ "rrrr:0" 1
     "qqqq" 0 7 none rfl (by decide)⟩

/-! ### C8: per-input recovery of the inscription parser -/

theorem from_transactionAux_append (xs ys : List TxIn) :
    ∀ i, from_transactionAux i (xs ++ ys)
      = from_transactionAux i xs ++ from_transactionAux (i + xs.length) ys := by
  induction xs with
  | nil => intro i; simp [from_transactionAux]
  | cons x rest ih =>
    intro i
    rw [List.cons_append, from_transactionAux, from_transactionAux, ih (i + 1)]
    simp [List.append_assoc, Nat.add_assoc, Nat.add_comm 1 rest.length]

theorem from_transactionAux_index_range (xs : List TxIn) :
    ∀ i ti, ti ∈ from_transactionAux i xs →
      i ≤ ti.tx_in_index ∧ ti.tx_in_index < i + xs.length := by
  induction xs with
  | nil => intro i ti h; cases h
  | cons x rest ih =>
    intro i ti h
    rw [from_transactionAux] at h
    simp only [List.length_cons]
    rcases List.mem_append.mp h with h1 | h1
    · have hidx : ti.tx_in_index = i := by
        split at h1
        · cases h1
        · split at h1
          · cases h1
          · obtain ⟨p, _, hp⟩ := List.mem_map.mp h1
            rw [← hp]
      omega
    · have := ih (i + 1) ti h1
      omega

/-- C8: an input whose witness fails inscription parsing with any
`InscriptionError` contributes no inscriptions and never propagates the
error: `from_transaction` returns exactly what it returns when that
input has no witness at all, and no returned inscription carries the
failing input's index. -/
theorem from_transaction_skips_bad_input (pre post : List TxIn) (txin : TxIn)
    (w : Witness) (eErr : InscriptionError) (hash : String) (outs : List TxOut)
    (hw : txin.witness = some w) (hp : InscriptionParser.parse w = .error eErr) :
    from_transaction ⟨hash, pre ++ txin :: post, outs⟩
      = from_transaction ⟨hash, pre ++ { txin with witness := none } :: post, outs⟩
    ∧ ∀ ti ∈ from_transaction ⟨hash, pre ++ txin :: post, outs⟩,
        ti.tx_in_index ≠ pre.length := by
  have hcontrib : ∀ j, from_transactionAux j (txin :: post)
      = from_transactionAux j ({ txin with witness := none } :: post) := by
    intro j
    rw [from_transactionAux, from_transactionAux]
    simp only [hw, hp]
  constructor
  · rw [from_transaction, from_transaction]
    simp only [from_transactionAux_append]
    rw [hcontrib]
  · intro ti hti
    rw [from_transaction, from_transactionAux_append] at hti
    rcases List.mem_append.mp hti with h1 | h1
    · have := from_transactionAux_index_range pre 0 ti h1
      omega
    · rw [hcontrib, from_transactionAux] at h1
      simp only at h1
      rcases List.mem_append.mp h1 with h2 | h2
      · cases h2
      · have := from_transactionAux_index_range post (0 + pre.length + 1) ti h2
        omega

/-! ### C2: commit ordering of the status table -/

/-- The table an event touches. -/
def Ev.table : Ev → Table
  | .putEv t => t
  | .commitEv t => t

/-- The claim, as a decidable trace property: every write to `status`
comes after every write to any other table. -/
def statusWritesLast (evs : List Ev) : Bool :=
  evs.enum.all (fun p =>
    if p.2.table == Table.status then
      evs.enum.all (fun q => if q.2.table != Table.status then q.1 < p.1 else true)
    else true)

/-- `e'` extends `e`'s event trace by a suffix that contains no `status`
batch commit. -/
def EventsExt (e e' : Engine) : Prop :=
  ∃ Δ : List Ev, e'.events = e.events ++ Δ ∧ Ev.commitEv Table.status ∉ Δ

theorem EventsExt.same_ev {a b : Engine} (h : b.events = a.events) : EventsExt a b :=
  ⟨[], by rw [h, List.append_nil], by simp⟩

theorem EventsExt.step {a b : Engine} (ev : Ev) (hne : ev ≠ Ev.commitEv Table.status)
    (h : b.events = a.events ++ [ev]) : EventsExt a b :=
  ⟨[ev], h, fun hh => hne (List.mem_singleton.mp hh).symm⟩

theorem EventsExt.trans_ev {a b c : Engine} (h1 : EventsExt a b) (h2 : EventsExt b c) :
    EventsExt a c := by
  obtain ⟨d1, q1, n1⟩ := h1
  obtain ⟨d2, q2, n2⟩ := h2
  refine ⟨d1 ++ d2, by rw [q2, q1, List.append_assoc], ?_⟩
  simp only [List.mem_append]
  rintro (hh | hh)
  · exact n1 hh
  · exact n2 hh

theorem update_state_events (e : Engine) (f : Flotsam) (t : String) (v o : Nat)
    (a : Option String) : EventsExt e (update_inscription_state e f t v o a) := by
  rcases hf : f.origin with ⟨cursed, unbound, insc⟩ | ⟨po, oo⟩
  · cases cursed
    · cases unbound <;>
        exact EventsExt.same_ev (by simp [update_inscription_state, hf])
    · cases unbound <;>
        exact EventsExt.step (Ev.putEv Table.status) (by decide)
          (by simp [update_inscription_state, hf])
  · exact EventsExt.same_ev (by simp [update_inscription_state, hf])

theorem drainOutputFlotsam_events (th : String) (vo end_ cur : Nat)
    (ad : Option String) :
    ∀ (floats : List Flotsam) (e : Engine),
      EventsExt e (drainOutputFlotsam th vo end_ cur ad e floats).1 := by
  intro floats
  induction floats with
  | nil => intro e; exact EventsExt.same_ev rfl
  | cons f rest ih =>
    intro e
    rw [drainOutputFlotsam]
    by_cases hlt : f.offset < end_
    · rw [if_pos hlt]
      exact (update_state_events e f th vo (sub64 f.offset cur) ad).trans_ev (ih _)
    · rw [if_neg hlt]
      exact EventsExt.same_ev rfl

theorem processOutputs_events (th : String) :
    ∀ (outs : List TxOut) (e : Engine) (cur vo : Nat)
      (wb : WriteBatch String Bytes) (floats : List Flotsam),
      EventsExt e (processOutputs th e cur vo wb outs floats).1 := by
  intro outs
  induction outs with
  | nil => intro e cur vo wb floats; exact EventsExt.same_ev rfl
  | cons o rest ih =>
    intro e cur vo wb floats
    exact (drainOutputFlotsam_events th vo (add64 cur o.value) cur o.address
        floats e).trans_ev (ih _ _ _ _ _)

theorem coinbaseTail_events (cur : Nat) :
    ∀ (floats : List Flotsam) (e : Engine), EventsExt e (coinbaseTail cur e floats) := by
  intro floats
  induction floats with
  | nil => intro e; exact EventsExt.same_ev rfl
  | cons f rest ih =>
    intro e
    exact (update_state_events e f null_hash 4294967295
        (sub64 (add64 e.lost_sats f.offset) cur) none).trans_ev (ih _)

theorem commitTxOutputValue_events (e : Engine) (wb : WriteBatch String Bytes) :
    EventsExt e (commitTxOutputValue e wb) :=
  EventsExt.step (Ev.commitEv Table.output_value) (by decide) rfl

theorem coinbaseFinish_events (e : Engine) (cursor : Nat)
    (remaining : List Flotsam) : EventsExt e (coinbaseFinish e cursor remaining) :=
  (coinbaseTail_events cursor remaining e).trans_ev (EventsExt.same_ev rfl)

theorem nonCoinbaseFinish_events (e : Engine) (cursor input_value : Nat)
    (remaining : List Flotsam) :
    EventsExt e (nonCoinbaseFinish e cursor input_value remaining) :=
  EventsExt.same_ev rfl

theorem indexTx_events (rpc : String → Nat → Option Nat) (e : Engine) (tx : Tx)
    (e' : Engine) (h : index_inscriptions_in_transaction rpc e tx = some e') :
    EventsExt e e' := by
  rw [index_inscriptions_in_transaction] at h
  split at h
  · cases h
  · rename_i sc heq
    by_cases hcb : txIsCoinbase tx = true
    · simp only [hcb, if_true] at h
      cases h
      refine (((EventsExt.same_ev ?_).trans_ev
        (processOutputs_events tx.hash tx.outputs _ 0 0 sc.wb _)).trans_ev
        (commitTxOutputValue_events _ _)).trans_ev (coinbaseFinish_events _ _ _)
      rfl
    · simp only [hcb, if_false, Bool.false_eq_true] at h
      cases h
      refine (((EventsExt.same_ev ?_).trans_ev
        (processOutputs_events tx.hash tx.outputs _ 0 0 sc.wb _)).trans_ev
        (commitTxOutputValue_events _ _)).trans_ev (nonCoinbaseFinish_events _ _ _ _)
      rfl

theorem runTxs_events (rpc : String → Nat → Option Nat) :
    ∀ (txs : List Tx) (e e' : Engine), runTxs rpc e txs = some e' → EventsExt e e' := by
  intro txs
  induction txs with
  | nil =>
    intro e e' h
    rw [runTxs] at h
    cases h
    exact EventsExt.same_ev rfl
  | cons tx rest ih =>
    intro e e' h
    rw [runTxs] at h
    split at h
    · cases h
    · rename_i e1 heq
      exact (indexTx_events rpc e tx e1 heq).trans_ev (ih e1 e' h)

theorem flushOutputValue_status_wb (e : Engine) :
    (flushOutputValue e).status_wb = e.status_wb := by
  rw [flushOutputValue]; split <;> rfl

theorem flushIdInscription_status_wb (e : Engine) :
    (flushIdInscription e).status_wb = e.status_wb := by
  rw [flushIdInscription]; split <;> rfl

theorem flushInscriptionOutput_status_wb (e : Engine) :
    (flushInscriptionOutput e).status_wb = e.status_wb := by
  rw [flushInscriptionOutput]; split <;> rfl

theorem flushOutputInscription_status_wb (e : Engine) :
    (flushOutputInscription e).status_wb = e.status_wb := by
  rw [flushOutputInscription]; split <;> rfl

theorem flushOutputValue_events (e : Engine) : EventsExt e (flushOutputValue e) := by
  rw [flushOutputValue]
  split
  · exact EventsExt.step (Ev.commitEv Table.output_value) (by simp) rfl
  · exact EventsExt.same_ev rfl

theorem flushIdInscription_events (e : Engine) : EventsExt e (flushIdInscription e) := by
  rw [flushIdInscription]
  split
  · exact EventsExt.step (Ev.commitEv Table.id_inscription) (by simp) rfl
  · exact EventsExt.same_ev rfl

theorem flushInscriptionOutput_events (e : Engine) :
    EventsExt e (flushInscriptionOutput e) := by
  rw [flushInscriptionOutput]
  split
  · exact EventsExt.step (Ev.commitEv Table.inscription_output) (by simp) rfl
  · exact EventsExt.same_ev rfl

theorem flushOutputInscription_events (e : Engine) :
    EventsExt e (flushOutputInscription e) := by
  rw [flushOutputInscription]
  split
  · exact EventsExt.step (Ev.commitEv Table.output_inscription) (by simp) rfl
  · exact EventsExt.same_ev rfl

/-- `flush_update` ends with exactly one `status` batch commit. -/
theorem flush_update_events (e : Engine) :
    ∃ d : List Ev, (flush_update e).events = e.events ++ d ++ [Ev.commitEv Table.status]
      ∧ Ev.commitEv Table.status ∉ d := by
  have h6 : EventsExt e (flushOutputInscription (materializeCache
      (flushInscriptionOutput (flushIdInscription (flushOutputValue
        (flushStatusBatch e)))))) := by
    refine EventsExt.trans_ev (EventsExt.same_ev (rfl :
        (flushStatusBatch e).events = e.events)) ?_
    refine (flushOutputValue_events _).trans_ev ?_
    refine (flushIdInscription_events _).trans_ev ?_
    refine (flushInscriptionOutput_events _).trans_ev ?_
    refine EventsExt.trans_ev (EventsExt.same_ev (rfl :
        (materializeCache _).events = _)) ?_
    exact flushOutputInscription_events _
  obtain ⟨d, hd, hnd⟩ := h6
  have hwb : (flushOutputInscription (materializeCache (flushInscriptionOutput
      (flushIdInscription (flushOutputValue (flushStatusBatch e)))))).status_wb
      = e.status_wb ++
        [WOp.put UNBOUND_INSCRIPTIONS (u64LE e.unbound_inscriptions),
         WOp.put NEXT_ID_NUMBER (i64LE e.next_number),
         WOp.put NEXT_CURSED_ID_NUMBER (i64LE e.next_cursed_number),
         WOp.put LOST_SATS (u64LE e.lost_sats),
         WOp.put INDEXED_HEIGHT (u64LE e.height)] := by
    rw [flushOutputInscription_status_wb]
    show (flushInscriptionOutput _).status_wb = _
    rw [flushInscriptionOutput_status_wb, flushIdInscription_status_wb,
      flushOutputValue_status_wb]
    rfl
  refine ⟨d, ?_, hnd⟩
  rw [flush_update, flushStatus, if_pos (by rw [hwb]; simp), hd,
    List.append_assoc]

/-- C2 (amended): during one block, the status **metadata batch** (the
five counters, `INDEXED_HEIGHT` included) is committed by
`flush_update` exactly once and as the very last durability event, after
the `output_value`, `id_inscription`, `inscription_output` and
`output_inscription` writes of the block — but per-inscription
cursed-number entries are written directly to the status table during
replay, before those commits. -/
theorem status_batch_commits_last (rpc : String → Nat → Option Nat) (height : Nat)
    (block : Block) (s : Store) (iu tu : List Nat) (e' : Engine)
    (h : index_transactions rpc height block s iu tu = some e') :
    e'.events.getLast? = some (Ev.commitEv Table.status)
    ∧ ∃ pre : List Ev, e'.events = pre ++ [Ev.commitEv Table.status]
        ∧ Ev.commitEv Table.status ∉ pre := by
  rw [index_transactions] at h
  rcases hr : runTxs rpc (InscriptionUpdater.new height block.timestamp s iu tu)
      (txOrder block.txs) with _ | e2
  · rw [hr] at h
    cases h
  · rw [hr] at h
    simp only [Option.map_some', Option.some.injEq] at h
    obtain ⟨d1, hd1, hn1⟩ := runTxs_events rpc (txOrder block.txs) _ e2 hr
    obtain ⟨d0, hd0, hn0⟩ := flush_update_events e2
    have hev : e'.events = (d1 ++ d0) ++ [Ev.commitEv Table.status] := by
      rw [← h, hd0, hd1]
      have : (InscriptionUpdater.new height block.timestamp s iu tu).events = [] := rfl
      rw [this, List.nil_append, List.append_assoc]
    constructor
    · rw [hev]
      exact List.getLast?_concat _
    · refine ⟨d1 ++ d0, hev, ?_⟩
      simp only [List.mem_append]
      rintro (hh | hh)
      · exact hn1 hh
      · exact hn0 hh

/-- C2 fixtures: a block whose non-coinbase transaction carries a
cursed inscription (envelope in input index 1), so a status put happens
during replay. -/
def c2_store : Store :=
  { status := []
    output_value := [("aaaa:0", u64LE 1000), ("aaaa:1", u64LE 500)]
    id_inscription := []
    inscription_output := []
    output_inscription := [] }

def c2_tx : Tx :=
  { hash := "dddd"
    inputs := [{ outpoint := { txid := "aaaa", index := 0 }, witness := none },
               { outpoint := { txid := "aaaa", index := 1 }, witness := some envWitness1 }]
    outputs := [{ value := 1200, address := none }] }

def c2_block : Block := { timestamp := 99, txs := [coinbaseTx "eeee" 625000300, c2_tx] }

def c2_run : Option Engine := index_transactions rpc_none 767430 c2_block c2_store [] []

/-- C2 counterexample: replaying `c2_block` writes the cursed
inscription's status entry (the leading `putEv status`) durably before
the other four tables' batch commits, so the claim's ordering property
is false on this trace. -/
theorem status_write_not_last_counterexample :
    (c2_run.map (fun e => e.events)) =
      some [Ev.putEv Table.status, Ev.commitEv Table.output_value,
            Ev.commitEv Table.output_value, Ev.commitEv Table.id_inscription,
            Ev.commitEv Table.inscription_output, Ev.commitEv Table.output_inscription,
            Ev.commitEv Table.status]
    ∧ (c2_run.map (fun e => statusWritesLast e.events)) = some false := by
  decide

/-- The engine value `c2_block` replays to. -/
def c2_engine : Engine :=
  (index_transactions rpc_none 767430 c2_block c2_store [] []).getD
    (InscriptionUpdater.new 0 0 Store.empty [] [])

/-- C2 witness: the amended theorem applied to the `c2_block` replay. -/
theorem status_batch_commits_last_witness :
    (index_transactions rpc_none 767430 c2_block c2_store [] [] = some c2_engine)
    ∧ (c2_engine.events.getLast? = some (Ev.commitEv Table.status)
      ∧ ∃ pre : List Ev, c2_engine.events = pre ++ [Ev.commitEv Table.status]
          ∧ Ev.commitEv Table.status ∉ pre) := by
  have h : index_transactions rpc_none 767430 c2_block c2_store [] [] = some c2_engine := by
    decide
  exact ⟨h, status_batch_commits_last rpc_none 767430 c2_block c2_store [] []
    c2_engine h⟩

/-! ### C9: lost-sats accounting -/

/-- Sum of a transaction's output values, the final
`output_value_cursor` of its output pass. -/
def txOutSum (tx : Tx) : Nat := tx.outputs.foldl (fun a o => add64 a o.value) 0

/-- Engine fields that no `update_inscription_state` call ever
changes. -/
def Frame (e e' : Engine) : Prop :=
  e'.height = e.height ∧ e'.timestamp = e.timestamp
  ∧ e'.status_wb = e.status_wb ∧ e'.output_value_wb = e.output_value_wb
  ∧ e'.reward = e.reward ∧ e'.lost_sats = e.lost_sats

theorem Frame.same_fr {a b : Engine} (h1 : b.height = a.height)
    (h2 : b.timestamp = a.timestamp) (h3 : b.status_wb = a.status_wb)
    (h4 : b.output_value_wb = a.output_value_wb) (h5 : b.reward = a.reward)
    (h6 : b.lost_sats = a.lost_sats) : Frame a b :=
  ⟨h1, h2, h3, h4, h5, h6⟩

theorem Frame.trans_fr {a b c : Engine} (h1 : Frame a b) (h2 : Frame b c) :
    Frame a c := by
  obtain ⟨x1, x2, x3, x4, x5, x6⟩ := h1
  obtain ⟨y1, y2, y3, y4, y5, y6⟩ := h2
  exact ⟨y1.trans x1, y2.trans x2, y3.trans x3, y4.trans x4, y5.trans x5,
    y6.trans x6⟩

theorem update_state_frame (e : Engine) (f : Flotsam) (t : String) (v o : Nat)
    (a : Option String) : Frame e (update_inscription_state e f t v o a) := by
  rcases hf : f.origin with ⟨cursed, unbound, insc⟩ | ⟨po, oo⟩
  · cases cursed <;> cases unbound <;>
      exact Frame.same_fr (by simp [update_inscription_state, hf])
        (by simp [update_inscription_state, hf])
        (by simp [update_inscription_state, hf])
        (by simp [update_inscription_state, hf])
        (by simp [update_inscription_state, hf])
        (by simp [update_inscription_state, hf])
  · exact Frame.same_fr (by simp [update_inscription_state, hf])
      (by simp [update_inscription_state, hf])
      (by simp [update_inscription_state, hf])
      (by simp [update_inscription_state, hf])
      (by simp [update_inscription_state, hf])
      (by simp [update_inscription_state, hf])

theorem commitTxOutputValue_frame (e : Engine) (wb : WriteBatch String Bytes) :
    Frame e (commitTxOutputValue e wb) :=
  Frame.same_fr rfl rfl rfl rfl rfl rfl

theorem drainOutputFlotsam_frame (th : String) (vo end_ cur : Nat)
    (ad : Option String) :
    ∀ (floats : List Flotsam) (e : Engine),
      Frame e (drainOutputFlotsam th vo end_ cur ad e floats).1 := by
  intro floats
  induction floats with
  | nil => intro e; exact Frame.same_fr rfl rfl rfl rfl rfl rfl
  | cons f rest ih =>
    intro e
    rw [drainOutputFlotsam]
    by_cases hlt : f.offset < end_
    · rw [if_pos hlt]
      exact (update_state_frame e f th vo (sub64 f.offset cur) ad).trans_fr (ih _)
    · rw [if_neg hlt]
      exact Frame.same_fr rfl rfl rfl rfl rfl rfl

theorem processOutputs_frame (th : String) :
    ∀ (outs : List TxOut) (e : Engine) (cur vo : Nat)
      (wb : WriteBatch String Bytes) (floats : List Flotsam),
      Frame e (processOutputs th e cur vo wb outs floats).1 := by
  intro outs
  induction outs with
  | nil => intro e cur vo wb floats; exact Frame.same_fr rfl rfl rfl rfl rfl rfl
  | cons o rest ih =>
    intro e cur vo wb floats
    exact (drainOutputFlotsam_frame th vo (add64 cur o.value) cur o.address
        floats e).trans_fr (ih _ _ _ _ _)

theorem coinbaseTail_frame (cur : Nat) :
    ∀ (floats : List Flotsam) (e : Engine), Frame e (coinbaseTail cur e floats) := by
  intro floats
  induction floats with
  | nil => intro e; exact Frame.same_fr rfl rfl rfl rfl rfl rfl
  | cons f rest ih =>
    intro e
    exact (update_state_frame e f null_hash 4294967295
        (sub64 (add64 e.lost_sats f.offset) cur) none).trans_fr (ih _)

/-- The final cursor of the output pass accumulates the output values
onto the starting cursor. -/
theorem processOutputs_cursor (th : String) :
    ∀ (outs : List TxOut) (e : Engine) (cur vo : Nat)
      (wb : WriteBatch String Bytes) (floats : List Flotsam),
      (processOutputs th e cur vo wb outs floats).2.1
        = outs.foldl (fun a o => add64 a o.value) cur := by
  intro outs
  induction outs with
  | nil => intro e cur vo wb floats; rfl
  | cons o rest ih =>
    intro e cur vo wb floats
    exact ih _ _ _ _ _

/-- A coinbase transaction adds `reward - output_sum` (wrapping `u64`
arithmetic) to `lost_sats` and leaves `reward`, the batches and the
clock fields unchanged. -/
theorem indexTx_coinbase_lost (rpc : String → Nat → Option Nat) (e : Engine)
    (tx : Tx) (e' : Engine)
    (h : index_inscriptions_in_transaction rpc e tx = some e')
    (hcb : txIsCoinbase tx = true) :
    e'.lost_sats = add64 e.lost_sats (sub64 e.reward (txOutSum tx))
    ∧ e'.reward = e.reward ∧ e'.status_wb = e.status_wb
    ∧ e'.height = e.height ∧ e'.timestamp = e.timestamp := by
  rw [index_inscriptions_in_transaction] at h
  split at h
  · cases h
  · rename_i sc heq
    simp only [hcb, if_true] at h
    cases h
    have hf : Frame { e with output_inscription_cache := sc.cache, flotsam := [] }
        (coinbaseTail (processOutputs tx.hash
            { e with output_inscription_cache := sc.cache, flotsam := [] }
            0 0 sc.wb tx.outputs (sortFlotsam (sc.floats ++ e.flotsam))).2.1
          (commitTxOutputValue (processOutputs tx.hash
              { e with output_inscription_cache := sc.cache, flotsam := [] }
              0 0 sc.wb tx.outputs (sortFlotsam (sc.floats ++ e.flotsam))).1
            (processOutputs tx.hash
              { e with output_inscription_cache := sc.cache, flotsam := [] }
              0 0 sc.wb tx.outputs (sortFlotsam (sc.floats ++ e.flotsam))).2.2.1)
          (processOutputs tx.hash
            { e with output_inscription_cache := sc.cache, flotsam := [] }
            0 0 sc.wb tx.outputs (sortFlotsam (sc.floats ++ e.flotsam))).2.2.2) := by
      refine Frame.trans_fr ?_ (coinbaseTail_frame _ _ _)
      refine Frame.trans_fr ?_ (commitTxOutputValue_frame _ _)
      exact processOutputs_frame tx.hash tx.outputs _ 0 0 sc.wb _
    obtain ⟨g1, g2, g3, g4, g5, g6⟩ := hf
    refine ⟨?_, ?_, ?_, ?_, ?_⟩
    · show add64 _ (sub64 _ _) = _
      rw [g5, g6, processOutputs_cursor]
      rfl
    · show (coinbaseTail _ _ _).reward = e.reward
      rw [g5]
    · show (coinbaseTail _ _ _).status_wb = e.status_wb
      rw [g3]
    · show (coinbaseTail _ _ _).height = e.height
      rw [g1]
    · show (coinbaseTail _ _ _).timestamp = e.timestamp
      rw [g2]

/-- A non-coinbase transaction never touches `lost_sats`, the status
batch or the clock fields. -/
theorem indexTx_noncoinbase_lost (rpc : String → Nat → Option Nat) (e : Engine)
    (tx : Tx) (e' : Engine)
    (h : index_inscriptions_in_transaction rpc e tx = some e')
    (hcb : txIsCoinbase tx = false) :
    e'.lost_sats = e.lost_sats ∧ e'.status_wb = e.status_wb
    ∧ e'.height = e.height ∧ e'.timestamp = e.timestamp := by
  rw [index_inscriptions_in_transaction] at h
  split at h
  · cases h
  · rename_i sc heq
    simp only [hcb, if_false, Bool.false_eq_true] at h
    cases h
    have hf : Frame { e with output_inscription_cache := sc.cache }
        (commitTxOutputValue (processOutputs tx.hash
            { e with output_inscription_cache := sc.cache }
            0 0 sc.wb tx.outputs (sortFlotsam sc.floats)).1
          (processOutputs tx.hash
            { e with output_inscription_cache := sc.cache }
            0 0 sc.wb tx.outputs (sortFlotsam sc.floats)).2.2.1) := by
      refine Frame.trans_fr ?_ (commitTxOutputValue_frame _ _)
      exact processOutputs_frame tx.hash tx.outputs _ 0 0 sc.wb _
    obtain ⟨g1, g2, g3, g4, g5, g6⟩ := hf
    exact ⟨g6, g3, g1, g2⟩

/-- Replaying any list of non-coinbase transactions leaves `lost_sats`,
the status batch and the clock fields unchanged. -/
theorem runTxs_noncoinbase_lost (rpc : String → Nat → Option Nat) :
    ∀ (txs : List Tx) (e e' : Engine), runTxs rpc e txs = some e' →
      (∀ tx ∈ txs, txIsCoinbase tx = false) →
      e'.lost_sats = e.lost_sats ∧ e'.status_wb = e.status_wb
      ∧ e'.height = e.height ∧ e'.timestamp = e.timestamp := by
  intro txs
  induction txs with
  | nil =>
    intro e e' h _
    rw [runTxs] at h
    cases h
    exact ⟨rfl, rfl, rfl, rfl⟩
  | cons tx rest ih =>
    intro e e' h hnc
    rw [runTxs] at h
    split at h
    · cases h
    · rename_i e1 heq
      obtain ⟨a1, a2, a3, a4⟩ := indexTx_noncoinbase_lost rpc e tx e1 heq
        (hnc tx (List.mem_cons_self _ _))
      obtain ⟨b1, b2, b3, b4⟩ := ih e1 e' h
        (fun t ht => hnc t (List.mem_cons_of_mem _ ht))
      exact ⟨b1.trans a1, b2.trans a2, b3.trans a3, b4.trans a4⟩

theorem flushStatusBatch_status (e : Engine) : (flushStatusBatch e).status = e.status := rfl

theorem flushOutputValue_status (e : Engine) :
    (flushOutputValue e).status = e.status := by
  rw [flushOutputValue]; split <;> rfl

theorem flushIdInscription_status (e : Engine) :
    (flushIdInscription e).status = e.status := by
  rw [flushIdInscription]; split <;> rfl

theorem flushInscriptionOutput_status (e : Engine) :
    (flushInscriptionOutput e).status = e.status := by
  rw [flushInscriptionOutput]; split <;> rfl

theorem flushOutputInscription_status (e : Engine) :
    (flushOutputInscription e).status = e.status := by
  rw [flushOutputInscription]; split <;> rfl

/-- After `flush_update` (with nothing batched into `status_wb` during
replay — replay never batches into it), the status table holds the five
engine counters under their metadata keys, and every other key is
untouched. -/
theorem flush_status_metadata (e : Engine) (hwb : e.status_wb = []) :
    (flush_update e).status.get UNBOUND_INSCRIPTIONS = some (u64LE e.unbound_inscriptions)
    ∧ (flush_update e).status.get NEXT_ID_NUMBER = some (i64LE e.next_number)
    ∧ (flush_update e).status.get NEXT_CURSED_ID_NUMBER = some (i64LE e.next_cursed_number)
    ∧ (flush_update e).status.get LOST_SATS = some (u64LE e.lost_sats)
    ∧ (flush_update e).status.get INDEXED_HEIGHT = some (u64LE e.height)
    ∧ ∀ k : String, k ≠ UNBOUND_INSCRIPTIONS → k ≠ NEXT_ID_NUMBER →
        k ≠ NEXT_CURSED_ID_NUMBER → k ≠ LOST_SATS → k ≠ INDEXED_HEIGHT →
        (flush_update e).status.get k = e.status.get k := by
  have hstat : (flushOutputInscription (materializeCache (flushInscriptionOutput
      (flushIdInscription (flushOutputValue (flushStatusBatch e)))))).status
      = e.status := by
    rw [flushOutputInscription_status]
    show (flushInscriptionOutput _).status = _
    rw [flushInscriptionOutput_status, flushIdInscription_status,
      flushOutputValue_status]
    rfl
  have hswb : (flushOutputInscription (materializeCache (flushInscriptionOutput
      (flushIdInscription (flushOutputValue (flushStatusBatch e)))))).status_wb
      = [WOp.put UNBOUND_INSCRIPTIONS (u64LE e.unbound_inscriptions),
         WOp.put NEXT_ID_NUMBER (i64LE e.next_number),
         WOp.put NEXT_CURSED_ID_NUMBER (i64LE e.next_cursed_number),
         WOp.put LOST_SATS (u64LE e.lost_sats),
         WOp.put INDEXED_HEIGHT (u64LE e.height)] := by
    rw [flushOutputInscription_status_wb]
    show (flushInscriptionOutput _).status_wb = _
    rw [flushInscriptionOutput_status_wb, flushIdInscription_status_wb,
      flushOutputValue_status_wb]
    show e.status_wb ++ _ = _
    rw [hwb]
    rfl
  have hfinal : (flush_update e).status
      = ((((e.status.put UNBOUND_INSCRIPTIONS (u64LE e.unbound_inscriptions)).put
            NEXT_ID_NUMBER (i64LE e.next_number)).put
            NEXT_CURSED_ID_NUMBER (i64LE e.next_cursed_number)).put
            LOST_SATS (u64LE e.lost_sats)).put
            INDEXED_HEIGHT (u64LE e.height) := by
    rw [flush_update, flushStatus, if_pos (by rw [hswb]; simp), hswb, hstat]
    rfl
  rw [hfinal]
  refine ⟨?_, ?_, ?_, ?_, ?_, ?_⟩
  · rw [KV.get_put_ne _ _ _ _ (by decide), KV.get_put_ne _ _ _ _ (by decide),
      KV.get_put_ne _ _ _ _ (by decide), KV.get_put_ne _ _ _ _ (by decide)]
    exact KV.get_put_same _ _ _
  · rw [KV.get_put_ne _ _ _ _ (by decide), KV.get_put_ne _ _ _ _ (by decide),
      KV.get_put_ne _ _ _ _ (by decide)]
    exact KV.get_put_same _ _ _
  · rw [KV.get_put_ne _ _ _ _ (by decide), KV.get_put_ne _ _ _ _ (by decide)]
    exact KV.get_put_same _ _ _
  · rw [KV.get_put_ne _ _ _ _ (by decide)]
    exact KV.get_put_same _ _ _
  · exact KV.get_put_same _ _ _
  · intro k h1 h2 h3 h4 h5
    rw [KV.get_put_ne _ _ _ _ (Ne.symm h5), KV.get_put_ne _ _ _ _ (Ne.symm h4),
      KV.get_put_ne _ _ _ _ (Ne.symm h3), KV.get_put_ne _ _ _ _ (Ne.symm h2),
      KV.get_put_ne _ _ _ _ (Ne.symm h1)]

/-- C9 (amended): per block, the engine adds
`reward − coinbase_output_sum` to `lost_sats` — exactly, and
non-decreasingly, whenever the coinbase claims at most `reward` (true of
consensus-valid blocks); `reward` at that point is the subsidy plus the
accumulated fees, `lost_sats` starts from the stored
`status[LOST_SATS]` and the final value is flushed back to it, so across
blocks `status[LOST_SATS]` accumulates the lifetime sum of
`(subsidy + fees) − coinbase_output_sum`.  Without the
`output_sum ≤ reward` hypothesis the `u64` subtraction wraps and
`lost_sats` can decrease (see the counterexample). -/
theorem lost_sats_accounting (rpc : String → Nat → Option Nat) (height : Nat)
    (block : Block) (cb : Tx) (rest : List Tx) (s : Store) (iu tu : List Nat)
    (e2 e' : Engine)
    (htxs : block.txs = cb :: rest)
    (hrest : runTxs rpc (InscriptionUpdater.new height block.timestamp s iu tu)
        rest = some e2)
    (hcbrun : index_inscriptions_in_transaction rpc e2 cb = some e')
    (hcb : txIsCoinbase cb = true)
    (hnc : ∀ tx ∈ rest, txIsCoinbase tx = false)
    (hle : txOutSum cb ≤ e2.reward)
    (hrw : e2.reward < 2 ^ 64)
    (hlt : e2.lost_sats + (e2.reward - txOutSum cb) < 2 ^ 64) :
    e2.lost_sats = status_value_u64 s.status LOST_SATS
    ∧ e'.lost_sats = e2.lost_sats + (e2.reward - txOutSum cb)
    ∧ e2.lost_sats ≤ e'.lost_sats
    ∧ index_transactions rpc height block s iu tu = some (flush_update e')
    ∧ (flush_update e').status.get LOST_SATS = some (u64LE e'.lost_sats) := by
  obtain ⟨l1, l2, l3, l4⟩ := runTxs_noncoinbase_lost rpc rest _ e2 hrest hnc
  obtain ⟨c1, c2, c3, c4, c5⟩ := indexTx_coinbase_lost rpc e2 cb e' hcbrun hcb
  have hlost : e'.lost_sats = e2.lost_sats + (e2.reward - txOutSum cb) := by
    rw [c1, sub64_exact _ _ hle hrw, add64_exact _ _ hlt]
  have hrun : runTxs rpc (InscriptionUpdater.new height block.timestamp s iu tu)
      (txOrder block.txs) = some e' := by
    rw [htxs]
    have horder : txOrder (cb :: rest) = rest ++ [cb] := by simp [txOrder]
    rw [horder]
    have happ : ∀ (xs ys : List Tx) (a b : Engine), runTxs rpc a xs = some b →
        runTxs rpc a (xs ++ ys) = runTxs rpc b ys := by
      intro xs
      induction xs with
      | nil =>
        intro ys a b hh
        rw [runTxs] at hh
        cases hh
        rfl
      | cons x xrest ih =>
        intro ys a b hh
        rw [runTxs] at hh
        rw [List.cons_append, runTxs]
        split at hh
        · cases hh
        · rename_i e1 heq
          exact ih ys e1 b hh
    rw [happ rest [cb] _ e2 hrest, runTxs, hcbrun]
    rfl
  refine ⟨?_, hlost, ?_, ?_, ?_⟩
  · rw [l1]
    rfl
  · rw [hlost]
    omega
  · rw [index_transactions, hrun]
    rfl
  · have hswb : e'.status_wb = [] := by
      rw [c3, l2]
      rfl
    exact (flush_status_metadata e' hswb).2.2.2.1

/-- C9 fixtures: a coinbase claiming 10 sats more than the reward, with
100 previously lost sats on record. -/
def c9_store : Store :=
  { status := [(LOST_SATS, u64LE 100)], output_value := [], id_inscription := [],
    inscription_output := [], output_inscription := [] }

def c9_block : Block := { timestamp := 5, txs := [coinbaseTx "cafe" 625000010] }

/-- C9 counterexample: at height 767430 the subsidy (and reward) is
625000000; a coinbase claiming 625000010 makes the wrapping `u64`
subtraction carry, and `status[LOST_SATS]` goes down from 100 to 90 —
`lost_sats` is not non-decreasing, and nothing caps it at 0. -/
theorem lost_sats_decreases_counterexample :
    ((indexBlock rpc_none 767430 c9_block c9_store [] []).map
        (fun s => status_value_u64 s.status LOST_SATS)) = some 90
    ∧ status_value_u64 c9_store.status LOST_SATS = 100
    ∧ decide ((100 : Nat) ≤ 90) = false := by
  decide

/-- The engine state after replaying the empty non-coinbase prefix of
`c9w_block`. -/
def c9w_e0 : Engine :=
  InscriptionUpdater.new 767430 5 Store.empty [] []

/-- A coinbase claiming 5 sats less than the reward. -/
def c9w_cb : Tx := coinbaseTx "beef" 624999995

def c9w_block : Block := { timestamp := 5, txs := [c9w_cb] }

/-- The engine value the coinbase replay produces. -/
def c9w_engine : Engine :=
  (index_inscriptions_in_transaction rpc_none c9w_e0 c9w_cb).getD c9w_e0

/-- C9 witness: the amended accounting applied to a block whose
coinbase claims 5 sats less than the reward (lost sats 0 → 5). -/
theorem lost_sats_accounting_witness :
    (c9w_block.txs = c9w_cb :: []
      ∧ runTxs rpc_none (InscriptionUpdater.new 767430 c9w_block.timestamp
          Store.empty [] []) [] = some c9w_e0
      ∧ index_inscriptions_in_transaction rpc_none c9w_e0 c9w_cb = some c9w_engine
      ∧ txIsCoinbase c9w_cb = true
      ∧ (∀ tx ∈ ([] : List Tx), txIsCoinbase tx = false)
      ∧ txOutSum c9w_cb ≤ c9w_e0.reward
      ∧ c9w_e0.reward < 2 ^ 64
      ∧ c9w_e0.lost_sats + (c9w_e0.reward - txOutSum c9w_cb) < 2 ^ 64)
    ∧ (c9w_e0.lost_sats = status_value_u64 Store.empty.status LOST_SATS
      ∧ c9w_engine.lost_sats = c9w_e0.lost_sats + (c9w_e0.reward - txOutSum c9w_cb)
      ∧ c9w_e0.lost_sats ≤ c9w_engine.lost_sats
      ∧ index_transactions rpc_none 767430 c9w_block Store.empty [] []
          = some (flush_update c9w_engine)
      ∧ (flush_update c9w_engine).status.get LOST_SATS
          = some (u64LE c9w_engine.lost_sats)) := by
  have h1 : index_inscriptions_in_transaction rpc_none c9w_e0 c9w_cb
      = some c9w_engine := by decide
  refine ⟨⟨rfl, by decide, h1, by decide, fun tx ht => absurd ht (by simp),
    by decide, by decide, by decide⟩, ?_⟩
  exact lost_sats_accounting rpc_none 767430 c9w_block c9w_cb [] Store.empty
    [] [] c9w_e0 c9w_engine rfl (by decide) h1 (by decide)
    (fun tx ht => absurd ht (by simp)) (by decide) (by decide) (by decide)

/-! ### C7: FIFO sat-flow assignment of the output pass -/

/-- The placements (flotsam, vout, local offset, address) one output's
drain performs, as a pure function of the sorted flotsam list. -/
def takeDrain (end_ cursor vout : Nat) (ad : Option String) :
    List Flotsam → List (Flotsam × Nat × Nat × Option String) × List Flotsam
  | [] => ([], [])
  | f :: fs =>
      if f.offset < end_ then
        let p := takeDrain end_ cursor vout ad fs
        ((f, vout, sub64 f.offset cursor, ad) :: p.1, p.2)
      else ([], f :: fs)

/-- The placements of the whole output pass. -/
def placeFlotsam : List TxOut → List Flotsam → Nat → Nat →
    List (Flotsam × Nat × Nat × Option String) × List Flotsam
  | [], floats, _, _ => ([], floats)
  | o :: outs, floats, cursor, vout =>
      let end_ := add64 cursor o.value
      let p := takeDrain end_ cursor vout o.address floats
      let q := placeFlotsam outs p.2 end_ (vout + 1)
      (p.1 ++ q.1, q.2)

/-- Run `update_inscription_state` over a placement list, in order. -/
def applyPlaced (th : String) : Engine → List (Flotsam × Nat × Nat × Option String) → Engine
  | e, [] => e
  | e, (f, v, o, ad) :: rest =>
      applyPlaced th (update_inscription_state e f th v o ad) rest

theorem applyPlaced_append (th : String) :
    ∀ (l1 l2 : List (Flotsam × Nat × Nat × Option String)) (e : Engine),
      applyPlaced th e (l1 ++ l2) = applyPlaced th (applyPlaced th e l1) l2 := by
  intro l1
  induction l1 with
  | nil => intro l2 e; rfl
  | cons p rest ih =>
    intro l2 e
    obtain ⟨f, v, o, ad⟩ := p
    exact ih l2 _

theorem drain_place_equiv (th : String) (vo end_ cur : Nat) (ad : Option String) :
    ∀ (floats : List Flotsam) (e : Engine),
      (drainOutputFlotsam th vo end_ cur ad e floats).1
        = applyPlaced th e (takeDrain end_ cur vo ad floats).1
      ∧ (drainOutputFlotsam th vo end_ cur ad e floats).2
        = (takeDrain end_ cur vo ad floats).2 := by
  intro floats
  induction floats with
  | nil => intro e; exact ⟨rfl, rfl⟩
  | cons f fs ih =>
    intro e
    rw [drainOutputFlotsam, takeDrain]
    by_cases hlt : f.offset < end_
    · rw [if_pos hlt, if_pos hlt]
      exact ih _
    · rw [if_neg hlt, if_neg hlt]
      exact ⟨rfl, rfl⟩

theorem processOutputs_place_equiv (th : String) :
    ∀ (outs : List TxOut) (e : Engine) (cur vo : Nat)
      (wb : WriteBatch String Bytes) (floats : List Flotsam),
      (processOutputs th e cur vo wb outs floats).1
        = applyPlaced th e (placeFlotsam outs floats cur vo).1
      ∧ (processOutputs th e cur vo wb outs floats).2.2.2
        = (placeFlotsam outs floats cur vo).2 := by
  intro outs
  induction outs with
  | nil => intro e cur vo wb floats; exact ⟨rfl, rfl⟩
  | cons o rest ih =>
    intro e cur vo wb floats
    rw [processOutputs, placeFlotsam]
    obtain ⟨hd1, hd2⟩ := drain_place_equiv th vo (add64 cur o.value) cur o.address floats e
    obtain ⟨hi1, hi2⟩ := ih (drainOutputFlotsam th vo (add64 cur o.value) cur o.address e floats).1
      (add64 cur o.value) (vo + 1)
      (wb ++ [WOp.put (outKey th vo) (u64LE o.value)])
      (drainOutputFlotsam th vo (add64 cur o.value) cur o.address e floats).2
    constructor
    · rw [hi1, hd1, hd2, applyPlaced_append]
    · rw [hi2, hd2]

/-- Flotsam lists sorted by offset. -/
def offsetSorted (l : List Flotsam) : Prop :=
  l.Pairwise (fun a b => a.offset ≤ b.offset)

instance (l : List Flotsam) : Decidable (offsetSorted l) :=
  inferInstanceAs (Decidable (l.Pairwise _))

/-- Modelled from the spec: the FIFO sat-flow rule — an offset lands on
the first output whose cumulative value range contains it, at local
offset `offset − cumulative value of prior outputs`, receiving that
output's address. -/
def specAssign : List TxOut → Nat → Option (Nat × Nat × Option String)
  | [], _ => none
  | o :: outs, off =>
      if off < o.value then some (0, off, o.address)
      else (specAssign outs (off - o.value)).map (fun r => (r.1 + 1, r.2.1, r.2.2))

theorem takeDrain_spec (end_ cursor vout : Nat) (ad : Option String) :
    ∀ floats : List Flotsam, offsetSorted floats →
      (∀ f ∈ floats, cursor ≤ f.offset) → cursor ≤ end_ → end_ ≤ 2 ^ 64 →
      ((∀ p ∈ (takeDrain end_ cursor vout ad floats).1,
          p.2.1 = vout ∧ p.2.2.2 = ad ∧ p.2.2.1 = p.1.offset - cursor
          ∧ cursor ≤ p.1.offset ∧ p.1.offset < end_)
        ∧ offsetSorted (takeDrain end_ cursor vout ad floats).2
        ∧ (∀ f ∈ (takeDrain end_ cursor vout ad floats).2, end_ ≤ f.offset)) := by
  intro floats
  induction floats with
  | nil => intro _ _ _ _; exact ⟨fun p hp => absurd hp (by simp [takeDrain]), by
      simp [takeDrain, offsetSorted], fun f hf => absurd hf (by simp [takeDrain])⟩
  | cons f fs ih =>
    intro hs hge hce he
    rw [takeDrain]
    rcases List.pairwise_cons.mp hs with ⟨hf_le, hs'⟩
    by_cases hlt : f.offset < end_
    · rw [if_pos hlt]
      obtain ⟨ha, hb, hc⟩ := ih hs' (fun g hg => hge g (List.mem_cons_of_mem _ hg))
        hce he
      refine ⟨?_, hb, hc⟩
      intro p hp
      rcases List.mem_cons.mp hp with h1 | h1
      · subst h1
        have hfo : cursor ≤ f.offset := hge f (List.mem_cons_self _ _)
        refine ⟨rfl, rfl, ?_, hfo, hlt⟩
        exact sub64_exact _ _ hfo (lt_of_lt_of_le hlt he)
      · exact ha p h1
    · rw [if_neg hlt]
      refine ⟨fun p hp => absurd hp (by simp), hs, ?_⟩
      intro g hg
      rcases List.mem_cons.mp hg with h1 | h1
      · subst h1; omega
      · exact le_trans (by omega) (hf_le g h1)

theorem takeDrain_members (end_ cursor vout : Nat) (ad : Option String) :
    ∀ floats : List Flotsam,
      (∀ p ∈ (takeDrain end_ cursor vout ad floats).1, p.1 ∈ floats)
      ∧ (∀ f ∈ (takeDrain end_ cursor vout ad floats).2, f ∈ floats) := by
  intro floats
  induction floats with
  | nil =>
    exact ⟨fun p hp => absurd hp (by simp [takeDrain]),
      fun f hf => absurd hf (by simp [takeDrain])⟩
  | cons f fs ih =>
    rw [takeDrain]
    by_cases hlt : f.offset < end_
    · rw [if_pos hlt]
      constructor
      · intro p hp
        rcases List.mem_cons.mp hp with h1 | h1
        · rw [h1]
          exact List.mem_cons_self _ _
        · exact List.mem_cons_of_mem _ (ih.1 p h1)
      · intro g hg
        exact List.mem_cons_of_mem _ (ih.2 g hg)
    · rw [if_neg hlt]
      exact ⟨fun p hp => absurd hp (by simp), fun g hg => hg⟩

theorem placeFlotsam_members :
    ∀ (outs : List TxOut) (floats : List Flotsam) (c v : Nat)
      (p : Flotsam × Nat × Nat × Option String),
      p ∈ (placeFlotsam outs floats c v).1 → p.1 ∈ floats := by
  intro outs
  induction outs with
  | nil =>
    intro floats c v p hp
    exact absurd hp (by simp [placeFlotsam])
  | cons o rest ih =>
    intro floats c v p hp
    rw [placeFlotsam] at hp
    rcases List.mem_append.mp hp with h1 | h1
    · exact (takeDrain_members _ _ _ _ floats).1 p h1
    · exact (takeDrain_members _ _ _ _ floats).2 p.1 (ih _ _ _ p h1)

theorem placeFlotsam_spec :
    ∀ (outs : List TxOut) (floats : List Flotsam) (cursor vout : Nat),
      offsetSorted floats → (∀ f ∈ floats, cursor ≤ f.offset) →
      cursor + (outs.map TxOut.value).sum < 2 ^ 64 →
      ∀ p ∈ (placeFlotsam outs floats cursor vout).1,
        specAssign outs (p.1.offset - cursor)
          = some (p.2.1 - vout, p.2.2.1, p.2.2.2)
        ∧ vout ≤ p.2.1 := by
  intro outs
  induction outs with
  | nil =>
    intro floats cursor vout _ _ _ p hp
    exact absurd hp (by simp [placeFlotsam])
  | cons o rest ih =>
    intro floats cursor vout hs hge hv p hp
    rw [placeFlotsam] at hp
    simp only [List.map_cons, List.sum_cons] at hv
    have hend : add64 cursor o.value = cursor + o.value :=
      add64_exact _ _ (by omega)
    obtain ⟨ha, hb, hc⟩ := takeDrain_spec (add64 cursor o.value) cursor vout
      o.address floats hs hge (by omega) (by omega)
    rcases List.mem_append.mp hp with h1 | h1
    · obtain ⟨q1, q2, q3, q4, q5⟩ := ha p h1
      rw [hend] at q5
      refine ⟨?_, le_of_eq q1.symm⟩
      rw [specAssign, if_pos (by omega), q1, q2, q3]
      simp
    · have hge' : ∀ f ∈ (takeDrain (add64 cursor o.value) cursor vout
          o.address floats).2, cursor + o.value ≤ f.offset := by
        intro f hf
        have := hc f hf
        omega
      obtain ⟨r1, r2⟩ := ih _ (cursor + o.value) (vout + 1) hb
        (by rw [← hend]; exact hc) (by omega) p (by rw [← hend]; exact h1)
      have hp_ge : cursor + o.value ≤ p.1.offset :=
        hge' p.1 (placeFlotsam_members rest _ (add64 cursor o.value) (vout + 1) p h1)
      refine ⟨?_, by omega⟩
      rw [specAssign, if_neg (by omega)]
      have harg : p.1.offset - cursor - o.value = p.1.offset - (cursor + o.value) := by
        omega
      rw [harg, r1]
      simp only [Option.map_some']
      have hj : p.2.1 - vout = p.2.1 - (vout + 1) + 1 := by omega
      rw [hj]

/-- C7 fixtures: a previous output carrying `/id1:100/id2:300`, spent
as the only input of a transaction creating outputs of 200 and 500. -/
def c7_store : Store :=
  { status := [], output_value := [("aaaa:0", u64LE 700)], id_inscription := [],
    inscription_output := [], output_inscription := [("aaaa:0", "/id1:100/id2:300")] }

def c7_tx : Tx :=
  { hash := "bbbb"
    inputs := [{ outpoint := ⟨"aaaa", 0⟩, witness := none }]
    outputs := [{ value := 200, address := some "addr0" },
                { value := 500, address := none }] }

def c7_block : Block := ⟨1234, [coinbaseTx "cccc" 625000000, c7_tx]⟩

def c7_run : Option Store := indexBlock rpc_none 767430 c7_block c7_store [] []

/-- C7: the output pass assigns inscriptions by the FIFO sat-flow rule:
the engine effects of `processOutputs` are exactly
`update_inscription_state` applied in order to the `placeFlotsam`
placement list, and for flotsam sorted ascending by offset (with
in-range output sums) every placement lands on the first output whose
cumulative value range contains the offset, at local offset
`offset − cumulative value of prior outputs`, receiving that output's
address; concretely, spending `/id1:100/id2:300` into outputs of 200
and 500 leaves id1 at `bbbb:0` offset 100 and id2 at `bbbb:1` offset
100. -/
theorem output_pass_fifo (th : String) (e : Engine) (wb : WriteBatch String Bytes)
    (outs : List TxOut) (floats : List Flotsam)
    (hs : offsetSorted floats)
    (hv : (outs.map TxOut.value).sum < 2 ^ 64) :
    ((processOutputs th e 0 0 wb outs floats).1
        = applyPlaced th e (placeFlotsam outs floats 0 0).1
      ∧ (processOutputs th e 0 0 wb outs floats).2.2.2
        = (placeFlotsam outs floats 0 0).2)
    ∧ (∀ p ∈ (placeFlotsam outs floats 0 0).1,
        specAssign outs p.1.offset = some (p.2.1, p.2.2.1, p.2.2.2))
    ∧ ((c7_run.map (fun s => s.output_inscription.get "bbbb:0"))
        = some (some "/id1:100")
      ∧ (c7_run.map (fun s => s.output_inscription.get "bbbb:1"))
        = some (some "/id2:100")
      ∧ (c7_run.map (fun s => s.inscription_output.get "id1"))
        = some (some "bbbb:0")
      ∧ (c7_run.map (fun s => s.inscription_output.get "id2"))
        = some (some "bbbb:1")) := by
  refine ⟨processOutputs_place_equiv th outs e 0 0 wb floats, ?_, ?_⟩
  · intro p hp
    have hres := placeFlotsam_spec outs floats 0 0 hs (fun f _ => Nat.zero_le _)
      (by simpa using hv) p hp
    simpa using hres.1
  · exact ⟨by decide, by decide, by decide, by decide⟩

def c7w_engine : Engine := InscriptionUpdater.new 767430 1234 c7_store [] []

def c7w_floats : List Flotsam :=
  [⟨"id1", 100, .old "aaaa:0" 100⟩, ⟨"id2", 300, .old "aaaa:0" 300⟩]

/-- C7 witness: the FIFO rule applied to the two-inscription transfer
scenario. -/
theorem output_pass_fifo_witness :
    (offsetSorted c7w_floats ∧ (c7_tx.outputs.map TxOut.value).sum < 2 ^ 64)
    ∧ (((processOutputs "bbbb" c7w_engine 0 0 [] c7_tx.outputs c7w_floats).1
          = applyPlaced "bbbb" c7w_engine (placeFlotsam c7_tx.outputs c7w_floats 0 0).1
        ∧ (processOutputs "bbbb" c7w_engine 0 0 [] c7_tx.outputs c7w_floats).2.2.2
          = (placeFlotsam c7_tx.outputs c7w_floats 0 0).2)
      ∧ (∀ p ∈ (placeFlotsam c7_tx.outputs c7w_floats 0 0).1,
          specAssign c7_tx.outputs p.1.offset = some (p.2.1, p.2.2.1, p.2.2.2))
      ∧ ((c7_run.map (fun s => s.output_inscription.get "bbbb:0"))
          = some (some "/id1:100")
        ∧ (c7_run.map (fun s => s.output_inscription.get "bbbb:1"))
          = some (some "/id2:100")
        ∧ (c7_run.map (fun s => s.inscription_output.get "id1"))
          = some (some "bbbb:0")
        ∧ (c7_run.map (fun s => s.inscription_output.get "id2"))
          = some (some "bbbb:1"))) :=
  ⟨⟨by decide, by decide⟩,
   output_pass_fifo "bbbb" c7w_engine [] c7_tx.outputs c7w_floats
     (by decide) (by decide)⟩

/-! ### C6: inscription numbering -/

/-- The decoded keys of the blessed (non-negative) `id_inscription`
puts of a batch. -/
def blessedKeys (wb : WriteBatch Bytes String) : List Int :=
  wb.filterMap (fun op => match op with
    | .put k _ => if 0 ≤ i64FromLE k then some (i64FromLE k) else none
    | .del _ => none)

/-- The decoded keys of the cursed (negative) `id_inscription` puts of
a batch. -/
def cursedKeys (wb : WriteBatch Bytes String) : List Int :=
  wb.filterMap (fun op => match op with
    | .put k _ => if i64FromLE k < 0 then some (i64FromLE k) else none
    | .del _ => none)

/-- The ascending integer range `[a, b)`. -/
def intRangeAsc (a b : Int) : List Int :=
  (List.range (b - a).toNat).map (fun (k : Nat) => a + (k : Int))

/-- The descending integer range `a, a-1, …, b+1`. -/
def intRangeDesc (a b : Int) : List Int :=
  (List.range (a - b).toNat).map (fun (k : Nat) => a - (k : Int))

/-- The `id_inscription` puts a run of `update_inscription_state` calls
produces, relative to the counter evolution: some interleaving of the
blessed keys `n, n+1, …, n'-1` (in order) and the cursed keys
`c, c-1, …, c'+1` (in order). -/
inductive AllocSeq : Int → Int → Int → Int → WriteBatch Bytes String → Prop
  | nil (n c : Int) : AllocSeq n n c c []
  | blessed (n n' c c' : Int) (id : String) (W : WriteBatch Bytes String) :
      AllocSeq (n + 1) n' c c' W →
      AllocSeq n n' c c' (WOp.put (i64LE n) id :: W)
  | cursed (n n' c c' : Int) (id : String) (W : WriteBatch Bytes String) :
      AllocSeq n n' (c - 1) c' W →
      AllocSeq n n' c c' (WOp.put (i64LE c) id :: W)

theorem AllocSeq.mono {n n' c c' : Int} {W : WriteBatch Bytes String}
    (h : AllocSeq n n' c c' W) : n ≤ n' ∧ c' ≤ c := by
  induction h with
  | nil => exact ⟨le_refl _, le_refl _⟩
  | blessed n n' c c' id W _ ih => omega
  | cursed n n' c c' id W _ ih => omega

theorem AllocSeq.append {n n1 n2 c c1 c2 : Int} {W1 W2 : WriteBatch Bytes String}
    (h1 : AllocSeq n n1 c c1 W1) (h2 : AllocSeq n1 n2 c1 c2 W2) :
    AllocSeq n n2 c c2 (W1 ++ W2) := by
  induction h1 with
  | nil => exact h2
  | blessed a a' b b' id W _ ih => exact AllocSeq.blessed _ _ _ _ id _ (ih h2)
  | cursed a a' b b' id W _ ih => exact AllocSeq.cursed _ _ _ _ id _ (ih h2)

theorem intRangeAsc_nil (a b : Int) (h : b ≤ a) : intRangeAsc a b = [] := by
  rw [intRangeAsc]
  have : (b - a).toNat = 0 := by omega
  rw [this]
  rfl

theorem intRangeDesc_nil (a b : Int) (h : a ≤ b) : intRangeDesc a b = [] := by
  rw [intRangeDesc]
  have : (a - b).toNat = 0 := by omega
  rw [this]
  rfl

theorem intRangeAsc_cons (a b : Int) (h : a < b) :
    intRangeAsc a b = a :: intRangeAsc (a + 1) b := by
  rw [intRangeAsc, intRangeAsc]
  have h1 : (b - a).toNat = (b - (a + 1)).toNat + 1 := by omega
  rw [h1, List.range_succ_eq_map, List.map_cons, List.map_map]
  refine congrArg₂ _ (by omega) ?_
  refine List.map_congr_left ?_
  intro k _
  simp only [Function.comp]
  push_cast
  omega

theorem intRangeDesc_cons (a b : Int) (h : b < a) :
    intRangeDesc a b = a :: intRangeDesc (a - 1) b := by
  rw [intRangeDesc, intRangeDesc]
  have h1 : (a - b).toNat = (a - 1 - b).toNat + 1 := by omega
  rw [h1, List.range_succ_eq_map, List.map_cons, List.map_map]
  refine congrArg₂ _ (by omega) ?_
  refine List.map_congr_left ?_
  intro k _
  simp only [Function.comp]
  push_cast
  omega

theorem intRangeAsc_nodup (a b : Int) : (intRangeAsc a b).Nodup := by
  refine List.Nodup.map ?_ (List.nodup_range _)
  intro x y hxy
  have hxy2 : a + (x : Int) = a + (y : Int) := hxy
  omega

theorem intRangeDesc_nodup (a b : Int) : (intRangeDesc a b).Nodup := by
  refine List.Nodup.map ?_ (List.nodup_range _)
  intro x y hxy
  have hxy2 : a - (x : Int) = a - (y : Int) := hxy
  omega

theorem intRangeAsc_mem (a b i : Int) (h : i ∈ intRangeAsc a b) :
    a ≤ i ∧ i < b := by
  rw [intRangeAsc] at h
  obtain ⟨k, hk, hik⟩ := List.mem_map.mp h
  have := List.mem_range.mp hk
  omega

theorem intRangeDesc_mem (a b i : Int) (h : i ∈ intRangeDesc a b) :
    b < i ∧ i ≤ a := by
  rw [intRangeDesc] at h
  obtain ⟨k, hk, hik⟩ := List.mem_map.mp h
  have := List.mem_range.mp hk
  omega

/-- Decoding an allocation trace whose counters stay in `i64` range:
the blessed keys are exactly `[n, n')` ascending, the cursed keys
exactly `(c', c]` descending. -/
theorem AllocSeq_keys {n n' c c' : Int} {W : WriteBatch Bytes String}
    (hA : AllocSeq n n' c c' W) :
    0 ≤ n → n' ≤ 2 ^ 63 → c ≤ -1 → -(2 ^ 63) ≤ c' →
    blessedKeys W = intRangeAsc n n' ∧ cursedKeys W = intRangeDesc c c' := by
  induction hA with
  | nil n c =>
    intro _ _ _ _
    rw [intRangeAsc_nil _ _ (le_refl _), intRangeDesc_nil _ _ (le_refl _)]
    exact ⟨rfl, rfl⟩
  | blessed n n' c c' id W hsub ih =>
    intro h1 h2 h3 h4
    obtain ⟨hm1, hm2⟩ := hsub.mono
    have hdec : i64FromLE (i64LE n) = n := i64FromLE_i64LE n (by omega) (by omega)
    obtain ⟨ih1, ih2⟩ := ih (by omega) h2 h3 h4
    constructor
    · rw [blessedKeys, List.filterMap_cons]
      simp only [hdec, if_pos h1]
      rw [show List.filterMap _ W = blessedKeys W from rfl, ih1,
        intRangeAsc_cons n n' (by omega)]
    · rw [cursedKeys, List.filterMap_cons]
      simp only [hdec, if_neg (by omega : ¬ n < 0)]
      exact ih2
  | cursed n n' c c' id W hsub ih =>
    intro h1 h2 h3 h4
    obtain ⟨hm1, hm2⟩ := hsub.mono
    have hdec : i64FromLE (i64LE c) = c := i64FromLE_i64LE c (by omega) (by omega)
    obtain ⟨ih1, ih2⟩ := ih h1 h2 (by omega) h4
    constructor
    · rw [blessedKeys, List.filterMap_cons]
      simp only [hdec, if_neg (by omega : ¬ 0 ≤ c)]
      exact ih1
    · rw [cursedKeys, List.filterMap_cons]
      simp only [hdec, if_pos (by omega : c < 0)]
      rw [show List.filterMap _ W = cursedKeys W from rfl, ih2,
        intRangeDesc_cons c c' (by omega)]

/-- `e'` extends `e` by a run of allocations. -/
def AllocExt (e e' : Engine) : Prop :=
  ∃ W : WriteBatch Bytes String,
    e'.id_inscription_wb = e.id_inscription_wb ++ W
    ∧ AllocSeq e.next_number e'.next_number
        e.next_cursed_number e'.next_cursed_number W

theorem AllocExt.same_al {a b : Engine} (h1 : b.id_inscription_wb = a.id_inscription_wb)
    (h2 : b.next_number = a.next_number)
    (h3 : b.next_cursed_number = a.next_cursed_number) : AllocExt a b := by
  refine ⟨[], by rw [h1, List.append_nil], ?_⟩
  rw [h2, h3]
  exact AllocSeq.nil _ _

theorem AllocExt.trans_al {a b c : Engine} (h1 : AllocExt a b) (h2 : AllocExt b c) :
    AllocExt a c := by
  obtain ⟨W1, e1, s1⟩ := h1
  obtain ⟨W2, e2, s2⟩ := h2
  exact ⟨W1 ++ W2, by rw [e2, e1, List.append_assoc], s1.append s2⟩

theorem update_state_alloc (e : Engine) (f : Flotsam) (t : String) (v o : Nat)
    (a : Option String) : AllocExt e (update_inscription_state e f t v o a) := by
  rcases hf : f.origin with ⟨cursed, unbound, insc⟩ | ⟨po, oo⟩
  · cases cursed
    · cases unbound <;>
        exact ⟨[WOp.put (i64LE e.next_number) f.inscription_id],
          by simp [update_inscription_state, hf],
          by
            have hn : (update_inscription_state e f t v o a).next_number
                = e.next_number + 1 := by simp [update_inscription_state, hf]
            have hc : (update_inscription_state e f t v o a).next_cursed_number
                = e.next_cursed_number := by simp [update_inscription_state, hf]
            rw [hn, hc]
            exact AllocSeq.blessed _ _ _ _ _ _ (AllocSeq.nil _ _)⟩
    · cases unbound <;>
        exact ⟨[WOp.put (i64LE e.next_cursed_number) f.inscription_id],
          by simp [update_inscription_state, hf],
          by
            have hn : (update_inscription_state e f t v o a).next_number
                = e.next_number := by simp [update_inscription_state, hf]
            have hc : (update_inscription_state e f t v o a).next_cursed_number
                = e.next_cursed_number - 1 := by simp [update_inscription_state, hf]
            rw [hn, hc]
            exact AllocSeq.cursed _ _ _ _ _ _ (AllocSeq.nil _ _)⟩
  · exact AllocExt.same_al (by simp [update_inscription_state, hf])
      (by simp [update_inscription_state, hf])
      (by simp [update_inscription_state, hf])

theorem drainOutputFlotsam_alloc (th : String) (vo end_ cur : Nat)
    (ad : Option String) :
    ∀ (floats : List Flotsam) (e : Engine),
      AllocExt e (drainOutputFlotsam th vo end_ cur ad e floats).1 := by
  intro floats
  induction floats with
  | nil => intro e; exact AllocExt.same_al rfl rfl rfl
  | cons f rest ih =>
    intro e
    rw [drainOutputFlotsam]
    by_cases hlt : f.offset < end_
    · rw [if_pos hlt]
      exact (update_state_alloc e f th vo (sub64 f.offset cur) ad).trans_al (ih _)
    · rw [if_neg hlt]
      exact AllocExt.same_al rfl rfl rfl

theorem processOutputs_alloc (th : String) :
    ∀ (outs : List TxOut) (e : Engine) (cur vo : Nat)
      (wb : WriteBatch String Bytes) (floats : List Flotsam),
      AllocExt e (processOutputs th e cur vo wb outs floats).1 := by
  intro outs
  induction outs with
  | nil => intro e cur vo wb floats; exact AllocExt.same_al rfl rfl rfl
  | cons o rest ih =>
    intro e cur vo wb floats
    exact (drainOutputFlotsam_alloc th vo (add64 cur o.value) cur o.address
        floats e).trans_al (ih _ _ _ _ _)

theorem coinbaseTail_alloc (cur : Nat) :
    ∀ (floats : List Flotsam) (e : Engine), AllocExt e (coinbaseTail cur e floats) := by
  intro floats
  induction floats with
  | nil => intro e; exact AllocExt.same_al rfl rfl rfl
  | cons f rest ih =>
    intro e
    exact (update_state_alloc e f null_hash 4294967295
        (sub64 (add64 e.lost_sats f.offset) cur) none).trans_al (ih _)

theorem commitTxOutputValue_alloc (e : Engine) (wb : WriteBatch String Bytes) :
    AllocExt e (commitTxOutputValue e wb) :=
  AllocExt.same_al rfl rfl rfl

theorem coinbaseFinish_alloc (e : Engine) (cursor : Nat)
    (remaining : List Flotsam) : AllocExt e (coinbaseFinish e cursor remaining) :=
  (coinbaseTail_alloc cursor remaining e).trans_al (AllocExt.same_al rfl rfl rfl)

theorem nonCoinbaseFinish_alloc (e : Engine) (cursor input_value : Nat)
    (remaining : List Flotsam) :
    AllocExt e (nonCoinbaseFinish e cursor input_value remaining) :=
  AllocExt.same_al rfl rfl rfl

theorem indexTx_alloc (rpc : String → Nat → Option Nat) (e : Engine) (tx : Tx)
    (e' : Engine) (h : index_inscriptions_in_transaction rpc e tx = some e') :
    AllocExt e e' := by
  rw [index_inscriptions_in_transaction] at h
  split at h
  · cases h
  · rename_i sc heq
    by_cases hcb : txIsCoinbase tx = true
    · simp only [hcb, if_true] at h
      cases h
      refine (((AllocExt.same_al ?_ ?_ ?_).trans_al
        (processOutputs_alloc tx.hash tx.outputs _ 0 0 sc.wb _)).trans_al
        (commitTxOutputValue_alloc _ _)).trans_al (coinbaseFinish_alloc _ _ _) <;> rfl
    · simp only [hcb, if_false, Bool.false_eq_true] at h
      cases h
      refine (((AllocExt.same_al ?_ ?_ ?_).trans_al
        (processOutputs_alloc tx.hash tx.outputs _ 0 0 sc.wb _)).trans_al
        (commitTxOutputValue_alloc _ _)).trans_al
        (nonCoinbaseFinish_alloc _ _ _ _) <;> rfl

theorem runTxs_alloc (rpc : String → Nat → Option Nat) :
    ∀ (txs : List Tx) (e e' : Engine), runTxs rpc e txs = some e' → AllocExt e e' := by
  intro txs
  induction txs with
  | nil =>
    intro e e' h
    rw [runTxs] at h
    cases h
    exact AllocExt.same_al rfl rfl rfl
  | cons tx rest ih =>
    intro e e' h
    rw [runTxs] at h
    split at h
    · cases h
    · rename_i e1 heq
      exact (indexTx_alloc rpc e tx e1 heq).trans_al (ih e1 e' h)

theorem indexTx_status_wb (rpc : String → Nat → Option Nat) (e : Engine) (tx : Tx)
    (e' : Engine) (h : index_inscriptions_in_transaction rpc e tx = some e') :
    e'.status_wb = e.status_wb := by
  by_cases hcb : txIsCoinbase tx = true
  · exact (indexTx_coinbase_lost rpc e tx e' h hcb).2.2.1
  · have hcb' : txIsCoinbase tx = false := by
      revert hcb
      cases txIsCoinbase tx <;> simp
    exact (indexTx_noncoinbase_lost rpc e tx e' h hcb').2.1

theorem runTxs_status_wb (rpc : String → Nat → Option Nat) :
    ∀ (txs : List Tx) (e e' : Engine), runTxs rpc e txs = some e' →
      e'.status_wb = e.status_wb := by
  intro txs
  induction txs with
  | nil =>
    intro e e' h
    rw [runTxs] at h
    cases h
    rfl
  | cons tx rest ih =>
    intro e e' h
    rw [runTxs] at h
    split at h
    · cases h
    · rename_i e1 heq
      exact (ih e1 e' h).trans (indexTx_status_wb rpc e tx e1 heq)

theorem flushOutputValue_id (e : Engine) :
    (flushOutputValue e).id_inscription = e.id_inscription := by
  rw [flushOutputValue]; split <;> rfl

theorem flushOutputValue_id_wb (e : Engine) :
    (flushOutputValue e).id_inscription_wb = e.id_inscription_wb := by
  rw [flushOutputValue]; split <;> rfl

theorem flushInscriptionOutput_id (e : Engine) :
    (flushInscriptionOutput e).id_inscription = e.id_inscription := by
  rw [flushInscriptionOutput]; split <;> rfl

theorem flushOutputInscription_id (e : Engine) :
    (flushOutputInscription e).id_inscription = e.id_inscription := by
  rw [flushOutputInscription]; split <;> rfl

theorem flushStatus_id (e : Engine) :
    (flushStatus e).id_inscription = e.id_inscription := by
  rw [flushStatus]; split <;> rfl

theorem flushIdInscription_commit (e : Engine) :
    (flushIdInscription e).id_inscription
      = e.id_inscription.write e.id_inscription_wb := by
  rw [flushIdInscription]
  split
  · rfl
  · rename_i hlen
    have hnil : e.id_inscription_wb = [] := by
      cases hwb : e.id_inscription_wb
      · rfl
      · rw [hwb] at hlen
        simp at hlen
    rw [hnil]
    rfl

/-- `flush_update` commits the whole `id_inscription` batch into the
`id_inscription` store. -/
theorem flush_id_commit (e : Engine) :
    (flush_update e).id_inscription
      = e.id_inscription.write e.id_inscription_wb := by
  rw [flush_update, flushStatus_id, flushOutputInscription_id]
  show (flushInscriptionOutput _).id_inscription = _
  rw [flushInscriptionOutput_id, flushIdInscription_commit, flushOutputValue_id,
    flushOutputValue_id_wb]
  rfl

/-- C6: starting from the stored counters (0 and the `0 → -1` fixup on
a fresh store), `next_number` is non-decreasing and `next_cursed_number`
non-increasing across the replay; the batched `id_inscription` put keys
decode exactly to the ascending blessed range `[start, final)` and the
descending cursed range `(final, start]` — each number written exactly
once, blessed numbers all `≥ 0`, cursed numbers all `≤ -1`, the two
ranges disjoint — and `flush_update` commits the batch and writes the
final counters back to `status`, from where the next block resumes. -/
theorem inscription_numbering (rpc : String → Nat → Option Nat) (height : Nat)
    (block : Block) (s : Store) (iu tu : List Nat) (e' : Engine)
    (hrun : runTxs rpc (InscriptionUpdater.new height block.timestamp s iu tu)
        (txOrder block.txs) = some e')
    (h0 : 0 ≤ status_value_i64 s.status NEXT_ID_NUMBER)
    (hc0 : status_value_i64 s.status NEXT_CURSED_ID_NUMBER ≤ 0)
    (hfn : e'.next_number ≤ 2 ^ 63)
    (hfc : -(2 ^ 63) ≤ e'.next_cursed_number) :
    ((InscriptionUpdater.new height block.timestamp s iu tu).next_number
        = status_value_i64 s.status NEXT_ID_NUMBER
      ∧ status_value_i64 Store.empty.status NEXT_ID_NUMBER = 0
      ∧ (status_value_i64 s.status NEXT_CURSED_ID_NUMBER = 0 →
          (InscriptionUpdater.new height block.timestamp s iu tu).next_cursed_number
            = -1))
    ∧ (status_value_i64 s.status NEXT_ID_NUMBER ≤ e'.next_number
      ∧ e'.next_cursed_number
        ≤ (InscriptionUpdater.new height block.timestamp s iu tu).next_cursed_number)
    ∧ (blessedKeys e'.id_inscription_wb
        = intRangeAsc (status_value_i64 s.status NEXT_ID_NUMBER) e'.next_number
      ∧ cursedKeys e'.id_inscription_wb
        = intRangeDesc (InscriptionUpdater.new height block.timestamp s iu
            tu).next_cursed_number e'.next_cursed_number
      ∧ (blessedKeys e'.id_inscription_wb).Nodup
      ∧ (cursedKeys e'.id_inscription_wb).Nodup
      ∧ (∀ i ∈ blessedKeys e'.id_inscription_wb, 0 ≤ i)
      ∧ (∀ i ∈ cursedKeys e'.id_inscription_wb, i ≤ -1))
    ∧ ((flush_update e').id_inscription
        = e'.id_inscription.write e'.id_inscription_wb
      ∧ (flush_update e').status.get NEXT_ID_NUMBER = some (i64LE e'.next_number)
      ∧ (flush_update e').status.get NEXT_CURSED_ID_NUMBER
        = some (i64LE e'.next_cursed_number)
      ∧ index_transactions rpc height block s iu tu
        = some (flush_update e')) := by
  have hstart : (InscriptionUpdater.new height block.timestamp s iu tu).next_number
      = status_value_i64 s.status NEXT_ID_NUMBER := rfl
  have hcstart : (InscriptionUpdater.new height block.timestamp s iu
      tu).next_cursed_number ≤ -1 := by
    show (if status_value_i64 s.status NEXT_CURSED_ID_NUMBER = 0 then
      status_value_i64 s.status NEXT_CURSED_ID_NUMBER - 1 else
      status_value_i64 s.status NEXT_CURSED_ID_NUMBER) ≤ -1
    split <;> omega
  obtain ⟨W, hW, hSeq⟩ := runTxs_alloc rpc (txOrder block.txs) _ e' hrun
  have hW0 : e'.id_inscription_wb = W := by
    rw [hW]
    rfl
  obtain ⟨hm1, hm2⟩ := hSeq.mono
  obtain ⟨hk1, hk2⟩ := AllocSeq_keys hSeq (by rw [← hstart] at h0; exact h0)
    hfn hcstart hfc
  have hswb : e'.status_wb = [] := by
    rw [runTxs_status_wb rpc _ _ e' hrun]
    rfl
  obtain ⟨m1, m2, m3, m4, m5, m6⟩ := flush_status_metadata e' hswb
  refine ⟨⟨hstart, rfl, ?_⟩, ⟨?_, hm2⟩, ⟨?_, ?_, ?_, ?_, ?_, ?_⟩,
    flush_id_commit e', m2, m3, ?_⟩
  · intro hz
    show (if status_value_i64 s.status NEXT_CURSED_ID_NUMBER = 0 then
      status_value_i64 s.status NEXT_CURSED_ID_NUMBER - 1 else
      status_value_i64 s.status NEXT_CURSED_ID_NUMBER) = -1
    rw [if_pos hz, hz]
    rfl
  · rw [← hstart]
    exact hm1
  · rw [hW0, hk1, hstart]
  · rw [hW0, hk2]
  · rw [hW0, hk1]
    exact intRangeAsc_nodup _ _
  · rw [hW0, hk2]
    exact intRangeDesc_nodup _ _
  · intro i hi
    rw [hW0, hk1] at hi
    have := intRangeAsc_mem _ _ _ hi
    rw [hstart] at this
    omega
  · intro i hi
    rw [hW0, hk2] at hi
    have := intRangeDesc_mem _ _ _ hi
    omega
  · rw [index_transactions, hrun]
    rfl

/-- The pre-flush engine the `c2_block` replay produces. -/
def c6w_engine : Engine :=
  (runTxs rpc_none (InscriptionUpdater.new 767430 99 c2_store [] [])
      (txOrder c2_block.txs)).getD (InscriptionUpdater.new 0 0 Store.empty [] [])

/-- C6 witness: the numbering theorem applied to the `c2_block` replay
(one cursed inscription: blessed range empty, cursed range `[-1]`). -/
theorem inscription_numbering_witness :
    (runTxs rpc_none (InscriptionUpdater.new 767430 c2_block.timestamp c2_store
        [] []) (txOrder c2_block.txs) = some c6w_engine
      ∧ 0 ≤ status_value_i64 c2_store.status NEXT_ID_NUMBER
      ∧ status_value_i64 c2_store.status NEXT_CURSED_ID_NUMBER ≤ 0
      ∧ c6w_engine.next_number ≤ 2 ^ 63
      ∧ -(2 ^ 63) ≤ c6w_engine.next_cursed_number)
    ∧ (((InscriptionUpdater.new 767430 c2_block.timestamp c2_store [] []).next_number
          = status_value_i64 c2_store.status NEXT_ID_NUMBER
        ∧ status_value_i64 Store.empty.status NEXT_ID_NUMBER = 0
        ∧ (status_value_i64 c2_store.status NEXT_CURSED_ID_NUMBER = 0 →
            (InscriptionUpdater.new 767430 c2_block.timestamp c2_store []
              []).next_cursed_number = -1))
      ∧ (status_value_i64 c2_store.status NEXT_ID_NUMBER ≤ c6w_engine.next_number
        ∧ c6w_engine.next_cursed_number
          ≤ (InscriptionUpdater.new 767430 c2_block.timestamp c2_store []
              []).next_cursed_number)
      ∧ (blessedKeys c6w_engine.id_inscription_wb
          = intRangeAsc (status_value_i64 c2_store.status NEXT_ID_NUMBER)
              c6w_engine.next_number
        ∧ cursedKeys c6w_engine.id_inscription_wb
          = intRangeDesc (InscriptionUpdater.new 767430 c2_block.timestamp
              c2_store [] []).next_cursed_number c6w_engine.next_cursed_number
        ∧ (blessedKeys c6w_engine.id_inscription_wb).Nodup
        ∧ (cursedKeys c6w_engine.id_inscription_wb).Nodup
        ∧ (∀ i ∈ blessedKeys c6w_engine.id_inscription_wb, 0 ≤ i)
        ∧ (∀ i ∈ cursedKeys c6w_engine.id_inscription_wb, i ≤ -1))
      ∧ ((flush_update c6w_engine).id_inscription
          = c6w_engine.id_inscription.write c6w_engine.id_inscription_wb
        ∧ (flush_update c6w_engine).status.get NEXT_ID_NUMBER
          = some (i64LE c6w_engine.next_number)
        ∧ (flush_update c6w_engine).status.get NEXT_CURSED_ID_NUMBER
          = some (i64LE c6w_engine.next_cursed_number)
        ∧ index_transactions rpc_none 767430 c2_block c2_store [] []
          = some (flush_update c6w_engine))) := by
  have hrun : runTxs rpc_none (InscriptionUpdater.new 767430 c2_block.timestamp
      c2_store [] []) (txOrder c2_block.txs) = some c6w_engine := by decide
  refine ⟨⟨hrun, by decide, by decide, by decide, by decide⟩, ?_⟩
  exact inscription_numbering rpc_none 767430 c2_block c2_store [] [] c6w_engine
    hrun (by decide) (by decide) (by decide) (by decide)

/-- C8 witness: a transaction whose second input has an empty witness
(an `EmptyWitness` parse error); the first and third inputs still
contribute. -/
theorem from_transaction_skips_bad_input_witness :
    ((⟨⟨"aaaa", 1⟩, some ([] : Witness)⟩ : TxIn).witness = some ([] : Witness)
      ∧ InscriptionParser.parse ([] : Witness) = .error .EmptyWitness)
    ∧ (from_transaction ⟨"ffff",
          [⟨⟨"aaaa", 0⟩, some envWitness1⟩] ++ ⟨⟨"aaaa", 1⟩, some []⟩ ::
            [⟨⟨"aaaa", 2⟩, some envWitness1⟩], []⟩
        = from_transaction ⟨"ffff",
            [⟨⟨"aaaa", 0⟩, some envWitness1⟩] ++
              ⟨⟨"aaaa", 1⟩, none⟩ :: [⟨⟨"aaaa", 2⟩, some envWitness1⟩], []⟩
      ∧ ∀ ti ∈ from_transaction ⟨"ffff",
            [⟨⟨"aaaa", 0⟩, some envWitness1⟩] ++ ⟨⟨"aaaa", 1⟩, some []⟩ ::
              [⟨⟨"aaaa", 2⟩, some envWitness1⟩], []⟩,
          ti.tx_in_index ≠ (1 : Nat)) := by
  refine ⟨⟨rfl, by decide⟩, ?_⟩
  have h := from_transaction_skips_bad_input
    [⟨⟨"aaaa", 0⟩, some envWitness1⟩] [⟨⟨"aaaa", 2⟩, some envWitness1⟩]
    ⟨⟨"aaaa", 1⟩, some []⟩ [] .EmptyWitness "ffff" [] rfl (by decide)
  exact h

end Ordi
